import Mathlib

set_option maxRecDepth 100000

/-!
Verification of the UGVP (Universal Grounding and Verification Protocol) core
against its natural-language specification.

This file shallowly embeds the protocol core of the repository:

* `src/config.py` — delimiter configuration and the SHI prefix length;
* `src/ugvp_protocol.py` — marker construction (`construct_igm`,
  `construct_relationship_marker`), the producer entry point
  (`generate_grounded_text`), the parser (`parse_acg_data`) and the assembler
  (`assemble_final_output`);
* `src/utils.py` — the source-hash identity (`generate_shi`, SHA-256).

Python strings are modelled as `List Char` (wrapped in `String` at the API
surface); ASCII is assumed for the character classes (`\w`, `str.lower`,
`str.strip`), which covers every input the claims quantify over.  The regular
expressions of `parse_acg_data` are embedded as hand-rolled scanners that
implement exactly the leftmost, non-overlapping match semantics the specific
patterns have (each pattern is deterministic: greedy character-class runs
followed by a mandatory delimiter, and non-greedy runs up to the first
occurrence of a delimiter).  Python exceptions are modelled with
`Except PyErr`; JSON values with integer numerics (floating point is out of
scope) and string keys.
-/

/-! ## Character classes and elementary list utilities -/

/-- Python regex `\w` restricted to ASCII: letters, digits and underscore. -/
def isWordChar (c : Char) : Bool :=
  c.isAlpha || c.isDigit || c = '_'

/-- The regex character class `[A-Fa-f0-9]`. -/
def isHexChar (c : Char) : Bool :=
  c.isDigit || ('a' ≤ c && c ≤ 'f') || ('A' ≤ c && c ≤ 'F')

/-- ASCII whitespace stripped by Python `str.strip()`. -/
def isSpacePy (c : Char) : Bool :=
  c = ' ' || c = '\t' || c = '\n' || c = '\r' || c = '\x0b' || c = '\x0c'

/-- Whitespace skipped between JSON tokens by `json.loads`. -/
def isJsonWs (c : Char) : Bool :=
  c = ' ' || c = '\t' || c = '\n' || c = '\r'

/-- Boolean prefix test on character lists. -/
def isPrefB : List Char → List Char → Bool
  | [], _ => true
  | _ :: _, [] => false
  | a :: p, b :: s => a = b && isPrefB p s

/-- Boolean substring test: does `pat` occur contiguously inside `s`? -/
def containsSub (pat : List Char) : List Char → Bool
  | [] => isPrefB pat []
  | c :: t => isPrefB pat (c :: t) || containsSub pat t

/-- Python `s[a:b]` on character lists (for `0 ≤ a ≤ b ≤ len`). -/
def pySlice (s : List Char) (a b : Nat) : List Char :=
  (s.drop a).take (b - a)

/-- Python `str.strip()`: drop ASCII whitespace from both ends. -/
def pyStrip (s : List Char) : List Char :=
  ((s.dropWhile isSpacePy).reverse.dropWhile isSpacePy).reverse

/-- Python `str.strip()` at the `String` level. -/
def pyStripStr (s : String) : String :=
  String.mk (pyStrip s.data)

/-- Python `str.replace(pat, "")` (left-to-right, non-overlapping),
with explicit fuel; `fuel ≥ length + 1` is always sufficient. -/
def replaceDropAux (pat : List Char) : Nat → List Char → List Char
  | 0, _ => []
  | _ + 1, [] => []
  | fuel + 1, c :: t =>
    if isPrefB pat (c :: t) then
      replaceDropAux pat fuel ((c :: t).drop pat.length)
    else
      c :: replaceDropAux pat fuel t

/-- Python `s.replace(pat, "")` for a non-empty pattern. -/
def replaceDrop (pat : List Char) (s : List Char) : List Char :=
  replaceDropAux pat (s.length + 1) s

/-- Python `",".join(xs)`. -/
def joinComma : List String → String
  | [] => ""
  | [x] => x
  | x :: y :: xs => x ++ "," ++ joinComma (y :: xs)

/-- Python `s.split(',')` on character lists. -/
def splitComma : List Char → List (List Char)
  | [] => [[]]
  | c :: t =>
    if c = ',' then [] :: splitComma t
    else
      match splitComma t with
      | [] => [[c]]
      | g :: gs => (c :: g) :: gs

/-! ## Errors

Python exception kinds that the embedded code can raise.  The spec's abstract
`MissingField` corresponds to the `ValueError`s raised by the construction
functions. -/

inductive PyErr where
  | valueError (msg : String)
  | keyError (key : String)
  | typeError
  deriving DecidableEq

/-! ## Configuration (src/config.py)

`Config.SHI_PREFIX_LENGTH = 10`; the ACG delimiters are
`[`, `]`, `:` for claim markers and `(`, `)`, `:`, `:` for relationship
markers. -/

def SHI_PREFIX_LENGTH : Nat := 10

/-! ## Marker construction (src/ugvp_protocol.py, construct_igm and
construct_relationship_marker) -/

/-- The `source_metadata` dict: only the keys the code reads are modelled;
`none` is an absent key, `some ""` a present-but-empty value. -/
structure SourceMetadata where
  shi : Option String
  loc_selector : Option String
  source_uri : Option String
  deriving DecidableEq

/-- `UGVPProtocol.construct_igm`: builds `[claim_id:shi_prefix:loc_selector]`,
raising `ValueError` when `shi` or `loc_selector` is absent or empty
(Python falsy). -/
def construct_igm (source_metadata : SourceMetadata) (claim_id : String) :
    Except PyErr String :=
  match source_metadata.shi, source_metadata.loc_selector with
  | some shi, some loc =>
    if shi = "" || loc = "" then
      .error (.valueError "Source metadata is missing shi or loc_selector.")
    else
      .ok ("[" ++ claim_id ++ ":" ++ String.mk (shi.data.take SHI_PREFIX_LENGTH)
        ++ ":" ++ loc ++ "]")
  | _, _ => .error (.valueError "Source metadata is missing shi or loc_selector.")

/-- `UGVPProtocol.construct_relationship_marker`: builds
`(relationship_id:rel_type:dep1,dep2,...)`, raising `ValueError` when any
argument is empty (Python falsy). -/
def construct_relationship_marker (relationship_id : String) (rel_type : String)
    (dependency_claims : List String) : Except PyErr String :=
  if relationship_id = "" || rel_type = "" || dependency_claims.isEmpty then
    .error (.valueError "Relationship ID, type, and dependency claims are required.")
  else
    .ok ("(" ++ relationship_id ++ ":" ++ rel_type ++ ":"
      ++ joinComma dependency_claims ++ ")")

/-! ## The marker scanners (src/ugvp_protocol.py, parse_acg_data lines 147-203)

The IGM pattern `\[(\w+):([A-Fa-f0-9]{8,10}):([^\]]+?)\]` and the RM pattern
`\((\w+):([^:)]+?):([^)]+?)\)` are deterministic: at a given start position a
match exists iff the greedy class runs are followed by the required delimiter,
and the non-greedy runs end at the first occurrence of the closing delimiter.
(`re.IGNORECASE` is a no-op: every character class involved is already closed
under case.)  `re.finditer` semantics: scan left to right, resume after each
match. -/

/-- Try to match the IGM regex at the head of `s`; returns the three groups
and the total length of the match. -/
def matchIgmAt : List Char → Option (List Char × List Char × List Char × Nat)
  | [] => none
  | c0 :: r1 =>
    if c0 = '[' then
      match r1.takeWhile isWordChar, r1.dropWhile isWordChar with
      | [], _ => none
      | cid, ':' :: r2 =>
        let hex := r2.takeWhile isHexChar
        if 8 ≤ hex.length && hex.length ≤ SHI_PREFIX_LENGTH then
          match r2.dropWhile isHexChar with
          | ':' :: r3 =>
            match r3.takeWhile (fun c => c ≠ ']'), r3.dropWhile (fun c => c ≠ ']') with
            | [], _ => none
            | loc, ']' :: _ =>
              some (cid, hex, loc, cid.length + hex.length + loc.length + 4)
            | _, _ => none
          | _ => none
        else none
      | _, _ => none
    else none

/-- One IGM regex match: its span in the text and its three groups. -/
structure IgmMatch where
  mstart : Nat
  mstop : Nat
  g1 : List Char
  g2 : List Char
  g3 : List Char
  deriving DecidableEq

/-- Left-to-right, non-overlapping scan for IGM matches (fuel-indexed;
`length + 1` fuel always suffices since every step consumes a character). -/
def findIgmsAux : Nat → List Char → Nat → List IgmMatch
  | 0, _, _ => []
  | _ + 1, [], _ => []
  | fuel + 1, c :: t, pos =>
    match matchIgmAt (c :: t) with
    | some (cid, hex, loc, len) =>
      ⟨pos, pos + len, cid, hex, loc⟩ :: findIgmsAux fuel ((c :: t).drop len) (pos + len)
    | none => findIgmsAux fuel t (pos + 1)

/-- All IGM matches of the text, in order (`re.finditer(igm_pattern, text)`). -/
def findIgmMatches (s : List Char) : List IgmMatch :=
  findIgmsAux (s.length + 1) s 0

/-- A parsed claim marker as returned by `parse_acg_data`. -/
structure Igm where
  claim_id : String
  shi : String
  loc : String
  claim_context : String
  deriving DecidableEq

/-- Second pass of `parse_acg_data`: attach to each match the stripped text
between the previous match end (document start for the first) and the match
start. -/
def attachContexts (text : List Char) : Nat → List IgmMatch → List Igm
  | _, [] => []
  | prevEnd, m :: rest =>
    { claim_id := String.mk m.g1, shi := String.mk m.g2, loc := String.mk m.g3,
      claim_context := String.mk (pyStrip (pySlice text prevEnd m.mstart)) }
      :: attachContexts text m.mstop rest

/-- The claim-marker part of `parse_acg_data`. -/
def findClaimMarkers (text : List Char) : List Igm :=
  attachContexts text 0 (findIgmMatches text)

/-- A parsed relationship marker as returned by `parse_acg_data`. -/
structure Rm where
  relationship_id : String
  type : String
  dep_claims : List String
  deriving DecidableEq

/-- Try to match the RM regex at the head of `s`. -/
def matchRmAt : List Char → Option (List Char × List Char × List Char × Nat)
  | [] => none
  | c0 :: r1 =>
    if c0 = '(' then
      match r1.takeWhile isWordChar, r1.dropWhile isWordChar with
      | [], _ => none
      | rid, ':' :: r2 =>
        match r2.takeWhile (fun c => c ≠ ':' && c ≠ ')'),
              r2.dropWhile (fun c => c ≠ ':' && c ≠ ')') with
        | [], _ => none
        | ty, ':' :: r3 =>
          match r3.takeWhile (fun c => c ≠ ')'), r3.dropWhile (fun c => c ≠ ')') with
          | [], _ => none
          | dep, ')' :: _ =>
            some (rid, ty, dep, rid.length + ty.length + dep.length + 4)
          | _, _ => none
        | _, _ => none
      | _, _ => none
    else none

/-- Left-to-right, non-overlapping scan for RM matches; the dependency group
is split on `,` exactly as `match.group(3).split(',')` does. -/
def findRmsAux : Nat → List Char → List Rm
  | 0, _ => []
  | _ + 1, [] => []
  | fuel + 1, c :: t =>
    match matchRmAt (c :: t) with
    | some (rid, ty, dep, len) =>
      { relationship_id := String.mk rid, type := String.mk ty,
        dep_claims := (splitComma dep).map String.mk }
        :: findRmsAux fuel ((c :: t).drop len)
    | none => findRmsAux fuel t

/-- The relationship-marker part of `parse_acg_data`. -/
def findRelMarkers (text : List Char) : List Rm :=
  findRmsAux (text.length + 1) text

/-! ## Locating the registry block

`re.search(r"--- ACG_START ---\n(.*?)\n--- ACG_END ---", text, re.DOTALL)`:
the match starts at the first occurrence of the start literal that is followed
(anywhere) by the end literal, and the non-greedy group ends at the first
following occurrence of the end literal.  Since any end literal following a
later start also follows the first start, this is: find the first start
literal, then the first end literal after it. -/

def acgStartLit : List Char := ("--- ACG_START ---\n").data

/-- The start literal without its trailing newline (used to state
no-occurrence hypotheses). -/
def acgStartBare : List Char := ("--- ACG_START ---").data

def acgEndLit : List Char := ("\n--- ACG_END ---").data

/-- Characters strictly before the first occurrence of `acgEndLit`
(`none` when the end literal does not occur). -/
def takeUntilEnd : List Char → Option (List Char)
  | [] => none
  | c :: t =>
    if isPrefB acgEndLit (c :: t) then some []
    else (takeUntilEnd t).map (c :: ·)

/-- Group 1 of the registry-block regex, per the semantics above. -/
def findAcgBlock : List Char → Option (List Char)
  | [] => none
  | c :: t =>
    if isPrefB acgStartLit (c :: t) then takeUntilEnd ((c :: t).drop acgStartLit.length)
    else findAcgBlock t

/-! ## JSON values

The JSON data the registry block carries.  Numbers are modelled as integers
(floating point is outside the scope of the embedding; no claim involves
non-integer numerics); object keys are strings, as Python's `json.dumps`
requires for the values this code serializes.  `joid` models a
`bson.ObjectId` leaf, which `CustomJsonEncoder` serializes as its string
representation. -/

mutual
inductive JVal where
  | jstr (s : String)
  | jint (n : Int)
  | jbool (b : Bool)
  | jnull
  | joid (s : String)
  | jarr (a : JArr)
  | jobj (o : JObj)
  deriving DecidableEq
inductive JArr where
  | anil
  | acons (v : JVal) (t : JArr)
  deriving DecidableEq
inductive JObj where
  | onil
  | ocons (k : String) (v : JVal) (t : JObj)
  deriving DecidableEq
end

/-! The `ObjectId`-to-string coercion `CustomJsonEncoder` performs: what a
value looks like after a dump/load round trip. -/

mutual
def coerceV : JVal → JVal
  | .jstr s => .jstr s
  | .jint n => .jint n
  | .jbool b => .jbool b
  | .jnull => .jnull
  | .joid s => .jstr s
  | .jarr a => .jarr (coerceA a)
  | .jobj o => .jobj (coerceO o)
def coerceA : JArr → JArr
  | .anil => .anil
  | .acons v t => .acons (coerceV v) (coerceA t)
def coerceO : JObj → JObj
  | .onil => .onil
  | .ocons k v t => .ocons k (coerceV v) (coerceO t)
end

/-- The left-brace character (spelled via its code point). -/
def lbrace : Char := Char.ofNat 123

/-- The right-brace character (spelled via its code point). -/
def rbrace : Char := Char.ofNat 125

/-! ## Serialization: `json.dumps(..., indent=2)`

With `indent=2` Python emits, for a non-empty container, a newline plus
`2*(level+1)` spaces before each element, `,` between elements, and a newline
plus `2*level` spaces before the closing bracket; empty containers are `[]`
and the two-brace object.  `ensure_ascii=True` (the default) escapes `"`,
`\`, control characters and every code point above `0x7e`; astral code
points become surrogate pairs. -/

def indentSp (n : Nat) : List Char := List.replicate (2 * n) ' '

/-- The sixteen lowercase hex digit characters. -/
def hexDigitChar (n : Nat) : Char := ("0123456789abcdef").data.getD n '0'

def hex4 (n : Nat) : List Char :=
  [hexDigitChar (n / 4096 % 16), hexDigitChar (n / 256 % 16),
   hexDigitChar (n / 16 % 16), hexDigitChar (n % 16)]

def uEsc (n : Nat) : List Char := '\\' :: 'u' :: hex4 n

/-- `json.dumps` escaping of one character (`py_encode_basestring_ascii`). -/
def escChar (c : Char) : List Char :=
  if c = '"' then ['\\', '"']
  else if c = '\\' then ['\\', '\\']
  else if c = '\x08' then ['\\', 'b']
  else if c = '\t' then ['\\', 't']
  else if c = '\n' then ['\\', 'n']
  else if c = '\x0c' then ['\\', 'f']
  else if c = '\r' then ['\\', 'r']
  else if c.toNat < 0x20 then uEsc c.toNat
  else if c.toNat ≤ 0x7e then [c]
  else if c.toNat < 0x10000 then uEsc c.toNat
  else
    uEsc (0xd800 + (c.toNat - 0x10000) / 0x400) ++ uEsc (0xdc00 + (c.toNat - 0x10000) % 0x400)

def escapeStr : List Char → List Char
  | [] => []
  | c :: t => escChar c ++ escapeStr t

def dumpStr (s : String) : List Char := '"' :: escapeStr s.data ++ ['"']

/-- Decimal digits of a natural number (fuel-indexed; `fuel > n` suffices). -/
def natDigitsAux : Nat → Nat → List Char
  | 0, _ => []
  | fuel + 1, n =>
    if n < 10 then [hexDigitChar n]
    else natDigitsAux fuel (n / 10) ++ [hexDigitChar (n % 10)]

def natDigits (n : Nat) : List Char := natDigitsAux (n + 1) n

/-- `json.dumps` of an `int` (Python `repr`). -/
def intDigits (i : Int) : List Char :=
  if i < 0 then '-' :: natDigits i.natAbs else natDigits i.natAbs

mutual
def dumpV (lvl : Nat) : JVal → List Char
  | .jstr s => dumpStr s
  | .joid s => dumpStr s
  | .jint n => intDigits n
  | .jbool true => ("true").data
  | .jbool false => ("false").data
  | .jnull => ("null").data
  | .jarr .anil => ("[]").data
  | .jarr (.acons v t) =>
    '[' :: dumpA (lvl + 1) (.acons v t) ++ '\n' :: indentSp lvl ++ [']']
  | .jobj .onil => [lbrace, rbrace]
  | .jobj (.ocons k v t) =>
    lbrace :: dumpO (lvl + 1) (.ocons k v t) ++ '\n' :: indentSp lvl ++ [rbrace]
def dumpA (lvl : Nat) : JArr → List Char
  | .anil => []
  | .acons v .anil => '\n' :: indentSp lvl ++ dumpV lvl v
  | .acons v (.acons w t) =>
    ('\n' :: indentSp lvl ++ dumpV lvl v) ++ ',' :: dumpA lvl (.acons w t)
def dumpO (lvl : Nat) : JObj → List Char
  | .onil => []
  | .ocons k v .onil =>
    '\n' :: indentSp lvl ++ dumpStr k ++ ':' :: ' ' :: dumpV lvl v
  | .ocons k v (.ocons k2 v2 t) =>
    ('\n' :: indentSp lvl ++ dumpStr k ++ ':' :: ' ' :: dumpV lvl v)
      ++ ',' :: dumpO lvl (.ocons k2 v2 t)
end

/-! ## Deserialization: `json.loads`

A recursive-descent parser mirroring Python's `json.scanner` on the JSON
fragment this code can produce (integer numerics; floats, `NaN`/`Infinity`
and lone surrogate escapes are rejected rather than parsed — none are
producible by the serializer above nor touched by any claim).  `none` models
`json.JSONDecodeError`. -/

def skipWs (s : List Char) : List Char := s.dropWhile isJsonWs

def digitVal (c : Char) : Nat := c.toNat - 48

def digitsVal (l : List Char) : Nat := l.foldl (fun a c => 10 * a + digitVal c) 0

def hexVal (c : Char) : Nat :=
  if c.isDigit then c.toNat - 48
  else if 'a' ≤ c && c ≤ 'f' then c.toNat - 87
  else c.toNat - 55

/-- Read four hex digits (`\uXXXX` payload). -/
def hex4Val : List Char → Option (Nat × List Char)
  | a :: b :: c :: d :: r =>
    if isHexChar a && isHexChar b && isHexChar c && isHexChar d then
      some (hexVal a * 4096 + hexVal b * 256 + hexVal c * 16 + hexVal d, r)
    else none
  | _ => none

/-- The regex `(-?(?:0|[1-9]\d*))` (integer part only): a leading `0` is the
whole number, otherwise a maximal digit run. -/
def parseNatTok : List Char → Option (Nat × List Char)
  | [] => none
  | c :: t =>
    if c = '0' then some (0, t)
    else if c.isDigit then
      some (digitsVal (c :: t.takeWhile Char.isDigit), t.dropWhile Char.isDigit)
    else none

/-- String body scanner (`py_scanstring`, strict mode), after the opening
quote; one fuel unit per source character. -/
def parseStrAux : Nat → List Char → Option (List Char × List Char)
  | 0, _ => none
  | _ + 1, [] => none
  | fuel + 1, c :: t =>
    if c = '"' then some ([], t)
    else if c = '\\' then
      match t with
      | [] => none
      | e :: r =>
        if e = '"' then (parseStrAux fuel r).map (fun p => ('"' :: p.1, p.2))
        else if e = '\\' then (parseStrAux fuel r).map (fun p => ('\\' :: p.1, p.2))
        else if e = '/' then (parseStrAux fuel r).map (fun p => ('/' :: p.1, p.2))
        else if e = 'b' then (parseStrAux fuel r).map (fun p => ('\x08' :: p.1, p.2))
        else if e = 'f' then (parseStrAux fuel r).map (fun p => ('\x0c' :: p.1, p.2))
        else if e = 'n' then (parseStrAux fuel r).map (fun p => ('\n' :: p.1, p.2))
        else if e = 'r' then (parseStrAux fuel r).map (fun p => ('\r' :: p.1, p.2))
        else if e = 't' then (parseStrAux fuel r).map (fun p => ('\t' :: p.1, p.2))
        else if e = 'u' then
          match hex4Val r with
          | none => none
          | some (n, r2) =>
            if 0xd800 ≤ n ∧ n ≤ 0xdbff then
              match r2 with
              | b1 :: b2 :: r3 =>
                if b1 = '\\' ∧ b2 = 'u' then
                  match hex4Val r3 with
                  | none => none
                  | some (m, r4) =>
                    if 0xdc00 ≤ m ∧ m ≤ 0xdfff then
                      (parseStrAux fuel r4).map
                        (fun p => (Char.ofNat (0x10000 + (n - 0xd800) * 0x400 + (m - 0xdc00)) :: p.1, p.2))
                    else none
                else none
              | _ => none
            else if 0xdc00 ≤ n ∧ n ≤ 0xdfff then none
            else (parseStrAux fuel r2).map (fun p => (Char.ofNat n :: p.1, p.2))
        else none
    else if c.toNat < 0x20 then none
    else (parseStrAux fuel t).map (fun p => (c :: p.1, p.2))

mutual
def parseVal (fuel0 : Nat) (s0 : List Char) : Option (JVal × List Char) :=
  match fuel0, s0 with
  | 0, _ => none
  | _ + 1, [] => none
  | fuel + 1, c :: t =>
    if c = lbrace then
      match skipWs t with
      | [] => none
      | d :: r2 =>
        if d = rbrace then some (.jobj .onil, r2)
        else (parseMembers fuel (d :: r2)).map (fun p => (.jobj p.1, p.2))
    else if c = '[' then
      match skipWs t with
      | [] => none
      | d :: r2 =>
        if d = ']' then some (.jarr .anil, r2)
        else (parseItems fuel (d :: r2)).map (fun p => (.jarr p.1, p.2))
    else if c = '"' then
      (parseStrAux fuel t).map (fun p => (.jstr (String.mk p.1), p.2))
    else if c = '-' then
      (parseNatTok t).map (fun p => (.jint (-(p.1 : Int)), p.2))
    else if c = 't' then
      match t with
      | 'r' :: 'u' :: 'e' :: r => some (.jbool true, r)
      | _ => none
    else if c = 'f' then
      match t with
      | 'a' :: 'l' :: 's' :: 'e' :: r => some (.jbool false, r)
      | _ => none
    else if c = 'n' then
      match t with
      | 'u' :: 'l' :: 'l' :: r => some (.jnull, r)
      | _ => none
    else
      (parseNatTok (c :: t)).map (fun p => (.jint (p.1 : Int), p.2))
termination_by structural fuel0
def parseItems (fuel0 : Nat) (s0 : List Char) : Option (JArr × List Char) :=
  match fuel0, s0 with
  | 0, _ => none
  | fuel + 1, s =>
    match parseVal fuel (skipWs s) with
    | none => none
    | some (v, r) =>
      match skipWs r with
      | ',' :: r2 => (parseItems fuel r2).map (fun p => (.acons v p.1, p.2))
      | ']' :: r2 => some (.acons v .anil, r2)
      | _ => none
termination_by structural fuel0
def parseMembers (fuel0 : Nat) (s0 : List Char) : Option (JObj × List Char) :=
  match fuel0, s0 with
  | 0, _ => none
  | fuel + 1, s =>
    match skipWs s with
    | [] => none
    | c :: r1 =>
      if c = '"' then
        match parseStrAux fuel r1 with
        | none => none
        | some (k, r2) =>
          match skipWs r2 with
          | ':' :: r3 =>
            match parseVal fuel (skipWs r3) with
            | none => none
            | some (v, r4) =>
              match skipWs r4 with
              | [] => none
              | d :: r5 =>
                if d = ',' then
                  (parseMembers fuel r5).map (fun p => (.ocons (String.mk k) v p.1, p.2))
                else if d = rbrace then some (.ocons (String.mk k) v .onil, r5)
                else none
          | _ => none
      else none
termination_by structural fuel0
end

/-- `json.loads`: skip whitespace, parse one value, require only whitespace
after it. -/
def jsonLoads (s : List Char) : Option JVal :=
  match parseVal (s.length + 1) (skipWs s) with
  | some (v, r) => if (skipWs r).isEmpty then some v else none
  | none => none

/-! ## The registry dictionaries of `parse_acg_data` (lines 205-225)

`if 'SSR' in acg_data and isinstance(acg_data['SSR'], list): ssr_dict =
{item['SHI']: item for item in acg_data['SSR']}` — note that only
`json.JSONDecodeError` is caught by the surrounding `try`; the membership
test, the indexing and the dict comprehension can raise `TypeError` /
`KeyError`, which propagate out of `parse_acg_data`. -/

/-- Python dict-style lookup on a parsed JSON object (a later duplicate key
overrides an earlier one, as in `json.loads`). -/
def jlookup : JObj → String → Option JVal
  | .onil, _ => none
  | .ocons k v t, key =>
    match jlookup t key with
    | some w => some w
    | none => if k = key then some v else none

def objHasKey : JObj → String → Bool
  | .onil, _ => false
  | .ocons k _ t, key => k = key || objHasKey t key

def arrHasStr : JArr → String → Bool
  | .anil, _ => false
  | .acons v t, key =>
    (match v with | .jstr s => s = key | _ => false) || arrHasStr t key

/-- Python `key in x` for a JSON value: key lookup on dicts, membership on
lists, substring test on strings, `TypeError` otherwise. -/
def pyContainsStr (key : String) : JVal → Except PyErr Bool
  | .jobj o => .ok (objHasKey o key)
  | .jarr a => .ok (arrHasStr a key)
  | .jstr s => .ok (containsSub key.data s.data)
  | _ => .error .typeError

/-- Python `x[key]` for a string key: dict lookup (raising `KeyError` when
absent), `TypeError` on any non-dict. -/
def pyIndexStr (v : JVal) (key : String) : Except PyErr JVal :=
  match v with
  | .jobj o =>
    match jlookup o key with
    | some w => .ok w
    | none => .error (.keyError key)
  | _ => .error .typeError

/-- Python dict keys must be hashable: a list or dict key raises
`TypeError`. -/
def dictKeyOf : JVal → Except PyErr JVal
  | .jarr _ => .error .typeError
  | .jobj _ => .error .typeError
  | v => .ok v

/-- Python dict insertion: overwrite in place or append. -/
def mapInsert : List (JVal × JVal) → JVal → JVal → List (JVal × JVal)
  | [], k, v => [(k, v)]
  | (k0, v0) :: t, k, v =>
    if k0 = k then (k0, v) :: t else (k0, v0) :: mapInsert t k v

/-- The dict comprehension `{item[field]: item for item in items}`. -/
def buildMapAux (field : String) : JArr → List (JVal × JVal) →
    Except PyErr (List (JVal × JVal))
  | .anil, acc => .ok acc
  | .acons item t, acc =>
    match pyIndexStr item field with
    | .error e => .error e
    | .ok kv =>
      match dictKeyOf kv with
      | .error e => .error e
      | .ok k => buildMapAux field t (mapInsert acc k item)

def buildMap (field : String) (a : JArr) : Except PyErr (List (JVal × JVal)) :=
  buildMapAux field a []

/-- One registry dictionary: `key in acg_data and
isinstance(acg_data[key], list)` guarding the comprehension keyed by
`field`. -/
def registryDictFor (acg : JVal) (key field : String) :
    Except PyErr (Option (List (JVal × JVal))) :=
  match pyContainsStr key acg with
  | .error e => .error e
  | .ok false => .ok none
  | .ok true =>
    match pyIndexStr acg key with
    | .error e => .error e
    | .ok (.jarr a) =>
      match buildMap field a with
      | .error e => .error e
      | .ok m => .ok (some m)
    | .ok _ => .ok none

/-! ## `parse_acg_data` (src/ugvp_protocol.py lines 131-225) -/

/-- `UGVPProtocol.parse_acg_data`: extract all claim markers, relationship
markers and the two registry dictionaries.  A missing block or a JSON decode
failure yields `none` registries (caught and logged); a `TypeError` /
`KeyError` while building the dictionaries propagates. -/
def parse_acg_data (original_text : String) :
    Except PyErr (List Igm × List Rm ×
      Option (List (JVal × JVal)) × Option (List (JVal × JVal))) :=
  let igms := findClaimMarkers original_text.data
  let rms := findRelMarkers original_text.data
  match findAcgBlock original_text.data with
  | none => .ok (igms, rms, none, none)
  | some content =>
    match jsonLoads content with
    | none => .ok (igms, rms, none, none)
    | some acg =>
      match registryDictFor acg "SSR" "SHI" with
      | .error e => .error e
      | .ok ssr =>
        match registryDictFor acg "VAR" "RELATION_ID" with
        | .error e => .error e
        | .ok var => .ok (igms, rms, ssr, var)

/-! ## The producer entry point (src/ugvp_protocol.py lines 77-129) -/

/-- The `relationship_metadata` dict: only the keys the code reads. -/
structure RelationshipMetadata where
  RELATION_ID : Option String
  TYPE : Option String
  DEP_CLAIMS : Option (List String)
  SYNTHESIS_PROSE : Option String
  LOGIC_MODEL : Option String
  TIMESTAMP : Option String
  deriving DecidableEq

/-- The SSR entry draft dict built by `generate_grounded_text` (`Type_`
models the dict key `"Type"`, which is a reserved word in Lean). -/
structure SsrEntry where
  SHI : String
  Type_ : String
  Canonical_URI : String
  Location_Type : String
  Loc_Selector : String
  deriving DecidableEq

def SsrEntry.toJ (e : SsrEntry) : JVal :=
  .jobj (.ocons "SHI" (.jstr e.SHI)
    (.ocons "Type" (.jstr e.Type_)
      (.ocons "Canonical_URI" (.jstr e.Canonical_URI)
        (.ocons "Location_Type" (.jstr e.Location_Type)
          (.ocons "Loc_Selector" (.jstr e.Loc_Selector) .onil)))))

/-- The VAR entry draft dict built by `generate_grounded_text`
(`LOGIC_MODEL` is inserted before being checked, hence optional here). -/
structure VarEntry where
  RELATION_ID : String
  TYPE : String
  DEP_CLAIMS : List String
  SYNTHESIS_PROSE : String
  LOGIC_MODEL : Option String
  AUDIT_STATUS : String
  TIMESTAMP : String
  deriving DecidableEq

def jarrOfStrList : List String → JArr
  | [] => .anil
  | s :: t => .acons (.jstr s) (jarrOfStrList t)

def VarEntry.toJ (e : VarEntry) : JVal :=
  .jobj (.ocons "RELATION_ID" (.jstr e.RELATION_ID)
    (.ocons "TYPE" (.jstr e.TYPE)
      (.ocons "DEP_CLAIMS" (.jarr (jarrOfStrList e.DEP_CLAIMS))
        (.ocons "SYNTHESIS_PROSE" (.jstr e.SYNTHESIS_PROSE)
          (.ocons "LOGIC_MODEL" (match e.LOGIC_MODEL with
              | some s => .jstr s
              | none => .jnull)
            (.ocons "AUDIT_STATUS" (.jstr e.AUDIT_STATUS)
              (.ocons "TIMESTAMP" (.jstr e.TIMESTAMP) .onil)))))))

/-- The SSR/VAR block appended by `generate_grounded_text` (single trailing
newline before the end marker, unlike the assembler). -/
def acgBlockGen (j : JVal) : String :=
  "\n--- ACG_START ---\n" ++ String.mk (dumpV 0 j) ++ "\n--- ACG_END ---"

/-- `UGVPProtocol.generate_grounded_text`: embed the IGM (and optional RM),
return the annotated text and the SSR / VAR entry drafts.  Dict accesses
(`source_metadata['shi']` etc.) raise `KeyError` when the key is absent;
the construction functions raise `ValueError` on empty fields. -/
def generate_grounded_text (claim : String) (source_metadata : SourceMetadata)
    (relationship_metadata : Option RelationshipMetadata) :
    Except PyErr (String × SsrEntry × Option VarEntry) :=
  match source_metadata.shi with
  | none => .error (.keyError "shi")
  | some shi =>
    match source_metadata.loc_selector with
    | none => .error (.keyError "loc_selector")
    | some locRaw =>
      let loc := String.mk (replaceDrop ("css=").data locRaw.data)
      let claim_id := "C1"
      match construct_igm source_metadata claim_id with
      | .error e => .error e
      | .ok igm =>
        match source_metadata.source_uri with
        | none => .error (.keyError "source_uri")
        | some uri =>
          let ssr_entry : SsrEntry :=
            { SHI := shi, Type_ := "Web Article", Canonical_URI := uri,
              Location_Type := "CSS_Selector", Loc_Selector := loc }
          match relationship_metadata with
          | none =>
            let block := acgBlockGen (.jobj (.ocons "SSR"
              (.jarr (.acons ssr_entry.toJ .anil))
              (.ocons "VAR" (.jarr .anil) .onil)))
            .ok (claim ++ " " ++ igm ++ "." ++ block, ssr_entry, none)
          | some rmeta =>
            let relationship_id := rmeta.RELATION_ID.getD "R1"
            match rmeta.TYPE with
            | none => .error (.valueError "Relationship TYPE must be provided in relationship_metadata.")
            | some rel_type =>
              if rel_type = "" then
                .error (.valueError "Relationship TYPE must be provided in relationship_metadata.")
              else
                let dep_claims := rmeta.DEP_CLAIMS.getD [claim_id]
                match construct_relationship_marker relationship_id rel_type dep_claims with
                | .error e => .error e
                | .ok rmStr =>
                  let var_entry : VarEntry :=
                    { RELATION_ID := relationship_id, TYPE := rel_type,
                      DEP_CLAIMS := dep_claims,
                      SYNTHESIS_PROSE := rmeta.SYNTHESIS_PROSE.getD claim,
                      LOGIC_MODEL := rmeta.LOGIC_MODEL,
                      AUDIT_STATUS := "PENDING",
                      TIMESTAMP := rmeta.TIMESTAMP.getD "" }
                  match var_entry.LOGIC_MODEL with
                  | none => .error (.valueError "LOGIC_MODEL must be provided in relationship_metadata for VAR entry.")
                  | some lm =>
                    if lm = "" then
                      .error (.valueError "LOGIC_MODEL must be provided in relationship_metadata for VAR entry.")
                    else
                      let block := acgBlockGen (.jobj (.ocons "SSR"
                        (.jarr (.acons ssr_entry.toJ .anil))
                        (.ocons "VAR" (.jarr (.acons var_entry.toJ .anil)) .onil)))
                      .ok (claim ++ " " ++ igm ++ rmStr ++ "." ++ block,
                        ssr_entry, some var_entry)

/-! ## The assembler (src/ugvp_protocol.py lines 227-250) -/

def jarrOfList : List JVal → JArr
  | [] => .anil
  | v :: t => .acons v (jarrOfList t)

/-- `UGVPProtocol.assemble_final_output`: append the serialized verified
registries (dict values, in insertion order) to the stripped generated
text. -/
def assemble_final_output (generated_text : String)
    (verified_ssr : List (String × JVal)) (verified_var : List (String × JVal)) :
    String :=
  let acg : JVal := .jobj (.ocons "SSR" (.jarr (jarrOfList (verified_ssr.map (·.2))))
    (.ocons "VAR" (.jarr (jarrOfList (verified_var.map (·.2)))) .onil))
  String.mk (pyStrip generated_text.data) ++ "\n"
    ++ "\n--- ACG_START ---\n" ++ String.mk (dumpV 0 acg) ++ "\n"
    ++ "\n--- ACG_END ---\n"

/-! ## The source hash identity (src/utils.py, generate_shi)

`generate_shi` feeds `f"{uri.strip().lower()}|{version.strip().lower()}"`,
UTF-8 encoded, through `hashlib.new("sha256").hexdigest()`
(`Config.SHI_ALGORITHM = "sha256"`).  SHA-256 is embedded below over `Nat`
with explicit reduction modulo `2^32`; bytes are `Nat`s below 256.
`str.lower` is modelled on its ASCII fragment (`Char.toLower`). -/

def M32 : Nat := 4294967296

def rotr32 (n x : Nat) : Nat := (x >>> n) ||| ((x % (1 <<< n)) <<< (32 - n))

def bsig0 (x : Nat) : Nat := rotr32 2 x ^^^ rotr32 13 x ^^^ rotr32 22 x

def bsig1 (x : Nat) : Nat := rotr32 6 x ^^^ rotr32 11 x ^^^ rotr32 25 x

def ssig0 (x : Nat) : Nat := rotr32 7 x ^^^ rotr32 18 x ^^^ (x >>> 3)

def ssig1 (x : Nat) : Nat := rotr32 17 x ^^^ rotr32 19 x ^^^ (x >>> 10)

def chF (x y z : Nat) : Nat := (x &&& y) ^^^ ((x ^^^ 0xffffffff) &&& z)

def majF (x y z : Nat) : Nat := (x &&& y) ^^^ (x &&& z) ^^^ (y &&& z)

def sha256K : List Nat :=
  [1116352408, 1899447441, 3049323471, 3921009573, 961987163, 1508970993,
   2453635748, 2870763221, 3624381080, 310598401, 607225278, 1426881987,
   1925078388, 2162078206, 2614888103, 3248222580, 3835390401, 4022224774,
   264347078, 604807628, 770255983, 1249150122, 1555081692, 1996064986,
   2554220882, 2821834349, 2952996808, 3210313671, 3336571891, 3584528711,
   113926993, 338241895, 666307205, 773529912, 1294757372, 1396182291,
   1695183700, 1986661051, 2177026350, 2456956037, 2730485921, 2820302411,
   3259730800, 3345764771, 3516065817, 3600352804, 4094571909, 275423344,
   430227734, 506948616, 659060556, 883997877, 958139571, 1322822218,
   1537002063, 1747873779, 1955562222, 2024104815, 2227730452, 2361852424,
   2428436474, 2756734187, 3204031479, 3329325298]

/-- The eight-word SHA-256 working state. -/
structure Sha8 where
  a : Nat
  b : Nat
  c : Nat
  d : Nat
  e : Nat
  f : Nat
  g : Nat
  h : Nat
  deriving DecidableEq

def sha256Init : Sha8 :=
  ⟨1779033703, 3144134277, 1013904242, 2773480762, 1359893119, 2600822924, 528734635, 1541459225⟩

/-- One compression round. -/
def roundFn (st : Sha8) (k w : Nat) : Sha8 :=
  let t1 := (st.h + bsig1 st.e + chF st.e st.f st.g + k + w) % M32
  let t2 := (bsig0 st.a + majF st.a st.b st.c) % M32
  ⟨(t1 + t2) % M32, st.a, st.b, st.c, (st.d + t1) % M32, st.e, st.f, st.g⟩

def compressWords : List (Nat × Nat) → Sha8 → Sha8
  | [], st => st
  | (k, w) :: t, st => compressWords t (roundFn st k w)

/-- Extend the 16 message-schedule words by `n` more. -/
def extendSched : Nat → List Nat → List Nat
  | 0, ws => ws
  | n + 1, ws =>
    let i := ws.length
    let w := (ssig1 (ws.getD (i - 2) 0) + ws.getD (i - 7) 0
      + ssig0 (ws.getD (i - 15) 0) + ws.getD (i - 16) 0) % M32
    extendSched n (ws ++ [w])

def bytesToWords : List Nat → List Nat
  | b0 :: b1 :: b2 :: b3 :: t =>
    (((b0 * 256 + b1) * 256 + b2) * 256 + b3) :: bytesToWords t
  | _ => []

def processChunk (st : Sha8) (chunkBytes : List Nat) : Sha8 :=
  let ws := extendSched 48 (bytesToWords chunkBytes)
  let x := compressWords (sha256K.zip ws) st
  ⟨(st.a + x.a) % M32, (st.b + x.b) % M32, (st.c + x.c) % M32, (st.d + x.d) % M32,
   (st.e + x.e) % M32, (st.f + x.f) % M32, (st.g + x.g) % M32, (st.h + x.h) % M32⟩

def chunksOf64 : Nat → List Nat → List (List Nat)
  | 0, _ => []
  | _ + 1, [] => []
  | fuel + 1, bytes => bytes.take 64 :: chunksOf64 fuel (bytes.drop 64)

/-- Big-endian eight-byte encoding of the bit length. -/
def lenBytes (n : Nat) : List Nat :=
  [n >>> 56 % 256, n >>> 48 % 256, n >>> 40 % 256, n >>> 32 % 256,
   n >>> 24 % 256, n >>> 16 % 256, n >>> 8 % 256, n % 256]

/-- SHA-256 padding: `0x80`, zeros to 56 mod 64, the bit length. -/
def padMsg (msg : List Nat) : List Nat :=
  msg ++ 0x80 :: List.replicate ((120 - ((msg.length + 1) % 64)) % 64) 0
    ++ lenBytes (8 * msg.length)

def sha256Words (msg : List Nat) : Sha8 :=
  (chunksOf64 (padMsg msg).length (padMsg msg)).foldl
    (fun st ch => processChunk st ch) sha256Init

/-- Eight lowercase hex digits of a 32-bit word (most significant first). -/
def word8Hex (w : Nat) : List Char :=
  [hexDigitChar (w >>> 28 % 16), hexDigitChar (w >>> 24 % 16),
   hexDigitChar (w >>> 20 % 16), hexDigitChar (w >>> 16 % 16),
   hexDigitChar (w >>> 12 % 16), hexDigitChar (w >>> 8 % 16),
   hexDigitChar (w >>> 4 % 16), hexDigitChar (w % 16)]

/-- `hashlib.sha256(bytes).hexdigest()`. -/
def sha256Hex (msg : List Nat) : String :=
  let d := sha256Words msg
  String.mk (word8Hex d.a ++ word8Hex d.b ++ word8Hex d.c ++ word8Hex d.d
    ++ word8Hex d.e ++ word8Hex d.f ++ word8Hex d.g ++ word8Hex d.h)

/-- UTF-8 bytes of one character. -/
def utf8Char (c : Char) : List Nat :=
  let v := c.toNat
  if v < 0x80 then [v]
  else if v < 0x800 then [0xc0 + v / 64, 0x80 + v % 64]
  else if v < 0x10000 then [0xe0 + v / 4096, 0x80 + v / 64 % 64, 0x80 + v % 64]
  else [0xf0 + v / 0x40000, 0x80 + v / 4096 % 64, 0x80 + v / 64 % 64, 0x80 + v % 64]

def utf8Encode : List Char → List Nat
  | [] => []
  | c :: t => utf8Char c ++ utf8Encode t

/-- Python `str.lower()` (ASCII fragment). -/
def pyLower (s : List Char) : List Char := s.map Char.toLower

/-- `generate_shi` (src/utils.py lines 15-20):
`hashlib.new("sha256", f"{uri.strip().lower()}|{tag.strip().lower()}"
.encode("utf-8")).hexdigest()`. -/
def generate_shi (canonical_uri : String) (version_tag : String) : String :=
  sha256Hex (utf8Encode
    (pyLower (pyStrip canonical_uri.data) ++ '|' :: pyLower (pyStrip version_tag.data)))

/-! ## Auxiliary measures and invariants used by the theorems -/

/-! Fuel measure for the JSON parser: `parseVal` succeeds on a dumped value
whenever its fuel is at least this size. -/

mutual
def sizeV : JVal → Nat
  | .jstr s => s.data.length + 2
  | .joid s => s.data.length + 2
  | .jint _ => 1
  | .jbool _ => 1
  | .jnull => 1
  | .jarr a => sizeA a + 1
  | .jobj o => sizeO o + 1
def sizeA : JArr → Nat
  | .anil => 1
  | .acons v t => sizeV v + sizeA t + 1
def sizeO : JObj → Nat
  | .onil => 1
  | .ocons k v t => k.data.length + sizeV v + sizeO t + 3
end

/-- No newline at all. -/
def noNl (s : List Char) : Bool := s.all (fun c => c ≠ '\n')

/-- Every newline is followed by a space, `]` or a closing brace, and the
list does not end in a newline: the shape of `json.dumps(..., indent=2)`
output, which guarantees the end-marker line cannot occur inside it. -/
def nlOk : List Char → Bool
  | [] => true
  | c :: t =>
    if c = '\n' then
      match t with
      | [] => false
      | d :: _ => (d = ' ' || d = ']' || d = rbrace) && nlOk t
    else nlOk t

/-- The first character (if any) is not a decimal digit: the shape of the
tail following a dumped number. -/
def noDigitHead (l : List Char) : Prop :=
  ∀ c, l.head? = some c → c.isDigit = false

/-- A lowercase hexadecimal digit. -/
def isLowerHexChar (c : Char) : Bool :=
  c.isDigit || ('a' ≤ c && c ≤ 'f')

/-- The spec's formula for `compute_source_identity` (§4.1, claim C7): the
SHA-256 hex digest of the UTF-8 bytes of
`trim(lowercase(uri)) + "|" + trim(lowercase(version))`. -/
def compute_source_identity_spec (canonical_uri : String) (version_tag : String) : String :=
  sha256Hex (utf8Encode
    (pyStrip (pyLower canonical_uri.data) ++ '|' :: pyStrip (pyLower version_tag.data)))


/-! # Theorems

First a toolkit of lemmas about the elementary list functions, then the
scanner lemmas, then one theorem per claim. -/

/-! ## Generic list lemmas -/

theorem takeWhile_append_stop (p : Char → Bool) (a : List Char) (b : Char) (r : List Char)
    (ha : ∀ x ∈ a, p x = true) (hb : p b = false) :
    List.takeWhile p (a ++ b :: r) = a := by
  induction a with
  | nil => simp [List.takeWhile, hb]
  | cons c t ih =>
    have hc := ha c (by simp)
    rw [List.cons_append, List.takeWhile_cons_of_pos hc,
      ih (fun x hx => ha x (by simp [hx]))]

theorem dropWhile_append_stop (p : Char → Bool) (a : List Char) (b : Char) (r : List Char)
    (ha : ∀ x ∈ a, p x = true) (hb : p b = false) :
    List.dropWhile p (a ++ b :: r) = b :: r := by
  induction a with
  | nil => simp [List.dropWhile, hb]
  | cons c t ih =>
    have hc := ha c (by simp)
    rw [List.cons_append, List.dropWhile_cons_of_pos hc]
    exact ih (fun x hx => ha x (by simp [hx]))

theorem takeWhile_nil_of_head (p : Char → Bool) (l : List Char)
    (h : ∀ c, l.head? = some c → p c = false) : l.takeWhile p = [] := by
  cases l with
  | nil => rfl
  | cons c t => simp [List.takeWhile, h c rfl]

theorem dropWhile_id_of_head (p : Char → Bool) (l : List Char)
    (h : ∀ c, l.head? = some c → p c = false) : l.dropWhile p = l := by
  cases l with
  | nil => rfl
  | cons c t => simp [List.dropWhile, h c rfl]

theorem isPrefB_append_self (p r : List Char) : isPrefB p (p ++ r) = true := by
  induction p with
  | nil => rfl
  | cons a t ih => simp [isPrefB, ih]

theorem eq_append_of_isPrefB (p s : List Char) (h : isPrefB p s = true) :
    ∃ r, s = p ++ r := by
  induction p generalizing s with
  | nil => exact ⟨s, rfl⟩
  | cons a t ih =>
    cases s with
    | nil => simp [isPrefB] at h
    | cons b u =>
      simp only [isPrefB, Bool.and_eq_true, decide_eq_true_eq] at h
      obtain ⟨rfl, h2⟩ := h
      obtain ⟨r, rfl⟩ := ih u h2
      exact ⟨r, rfl⟩

theorem isPrefB_head (a : Char) (p : List Char) (b : Char) (s : List Char)
    (h : isPrefB (a :: p) (b :: s) = true) : a = b := by
  simp only [isPrefB, Bool.and_eq_true, decide_eq_true_eq] at h
  exact h.1

theorem isPrefB_split (p u v : List Char) (h : isPrefB p (u ++ v) = true) :
    isPrefB p u = true ∨ ∃ q, q ≠ [] ∧ p = u ++ q ∧ isPrefB q v = true := by
  induction u generalizing p with
  | nil =>
    cases p with
    | nil => exact Or.inl rfl
    | cons a t => exact Or.inr ⟨a :: t, by simp, rfl, h⟩
  | cons c u ih =>
    cases p with
    | nil => exact Or.inl rfl
    | cons a t =>
      simp only [List.cons_append, isPrefB, Bool.and_eq_true, decide_eq_true_eq] at h ⊢
      obtain ⟨rfl, h2⟩ := h
      rcases ih t h2 with h3 | ⟨q, hq, rfl, hq2⟩
      · exact Or.inl ⟨rfl, h3⟩
      · exact Or.inr ⟨q, hq, rfl, hq2⟩

theorem containsSub_nil_pat (s : List Char) : containsSub [] s = true := by
  cases s <;> simp [containsSub, isPrefB]

theorem containsSub_cons_eq (p : List Char) (c : Char) (t : List Char) :
    containsSub p (c :: t) = (isPrefB p (c :: t) || containsSub p t) := rfl

theorem containsSub_of_isPrefB (p s : List Char) (h : isPrefB p s = true) :
    containsSub p s = true := by
  cases s with
  | nil => cases p with | nil => rfl | cons a t => simp [isPrefB] at h
  | cons c t => simp [containsSub, h]

theorem containsSub_tail (p : List Char) (c : Char) (t : List Char)
    (h : containsSub p t = true) : containsSub p (c :: t) = true := by
  simp [containsSub, h]

theorem containsSub_exists (p s : List Char) (h : containsSub p s = true) :
    ∃ a b, s = a ++ p ++ b := by
  induction s with
  | nil =>
    simp only [containsSub] at h
    obtain ⟨r, hr⟩ := eq_append_of_isPrefB p [] h
    exact ⟨[], r, by simpa using hr⟩
  | cons c t ih =>
    simp only [containsSub, Bool.or_eq_true] at h
    rcases h with h | h
    · obtain ⟨r, hr⟩ := eq_append_of_isPrefB p (c :: t) h
      exact ⟨[], r, by simpa using hr⟩
    · obtain ⟨a, b, rfl⟩ := ih h
      exact ⟨c :: a, b, rfl⟩

theorem containsSub_of_exists (p a b : List Char) :
    containsSub p (a ++ p ++ b) = true := by
  induction a with
  | nil =>
    apply containsSub_of_isPrefB
    simpa using isPrefB_append_self p b
  | cons c t ih => simpa [containsSub_cons_eq, ih] using Or.inr ih

theorem containsSub_mem (p s : List Char) (h : containsSub p s = true)
    (x : Char) (hx : x ∈ p) : x ∈ s := by
  obtain ⟨a, b, rfl⟩ := containsSub_exists p s h
  simp [hx]

/-- Occurrence-blocking: a pattern avoiding `sep` cannot occur in
`u ++ sep :: v` if it occurs in neither `u` nor `v`. -/
theorem containsSub_sep_block (p u v : List Char) (sep : Char) (hsep : sep ∉ p)
    (hu : containsSub p u = false) (hv : containsSub p v = false) :
    containsSub p (u ++ sep :: v) = false := by
  cases p with
  | nil => rw [containsSub_nil_pat u] at hu; cases hu
  | cons pc pr =>
    induction u with
    | nil =>
      simp only [List.nil_append, containsSub_cons_eq, Bool.or_eq_false_iff]
      refine ⟨?_, hv⟩
      cases hpf : isPrefB (pc :: pr) (sep :: v) with
      | false => rfl
      | true => exact absurd (isPrefB_head pc pr sep v hpf ▸ List.mem_cons_self pc pr) hsep
    | cons c u ih =>
      simp only [containsSub_cons_eq, Bool.or_eq_false_iff] at hu
      simp only [List.cons_append, containsSub_cons_eq, Bool.or_eq_false_iff]
      refine ⟨?_, ih hu.2⟩
      cases hpf : isPrefB (pc :: pr) (c :: (u ++ sep :: v)) with
      | false => rfl
      | true =>
        exfalso
        rcases isPrefB_split (pc :: pr) (c :: u) (sep :: v) (by simpa using hpf) with
          h | ⟨q, hq, hpq, hq2⟩
        · rw [hu.1] at h; cases h
        · cases q with
          | nil => exact hq rfl
          | cons qh qt =>
            have : qh = sep := isPrefB_head qh qt sep v hq2
            subst this
            exact hsep (by rw [hpq]; simp)

/-- `pyStrip s` is a contiguous piece of `s`. -/
theorem exists_strip_decomp (s : List Char) : ∃ a b, s = a ++ pyStrip s ++ b := by
  refine ⟨(s.takeWhile isSpacePy),
    (((s.dropWhile isSpacePy).reverse.takeWhile isSpacePy)).reverse, ?_⟩
  have h2 : (s.dropWhile isSpacePy).reverse =
      (s.dropWhile isSpacePy).reverse.takeWhile isSpacePy
        ++ (s.dropWhile isSpacePy).reverse.dropWhile isSpacePy :=
    (List.takeWhile_append_dropWhile isSpacePy _).symm
  have h3 : s.dropWhile isSpacePy =
      ((s.dropWhile isSpacePy).reverse.dropWhile isSpacePy).reverse
        ++ ((s.dropWhile isSpacePy).reverse.takeWhile isSpacePy).reverse := by
    conv_lhs => rw [← List.reverse_reverse (s.dropWhile isSpacePy), h2]
    rw [List.reverse_append]
  conv_lhs => rw [← List.takeWhile_append_dropWhile isSpacePy s, h3]
  rw [pyStrip, List.append_assoc]

theorem containsSub_mono_strip (p s : List Char)
    (h : containsSub p s = false) : containsSub p (pyStrip s) = false := by
  cases hc : containsSub p (pyStrip s) with
  | false => rfl
  | true =>
    exfalso
    obtain ⟨a, b, hs⟩ := exists_strip_decomp s
    obtain ⟨x, y, hxy⟩ := containsSub_exists p (pyStrip s) hc
    rw [hs, hxy] at h
    rw [show a ++ (x ++ p ++ y) ++ b = (a ++ x) ++ p ++ (y ++ b) by simp,
      containsSub_of_exists] at h
    cases h

/-! ## Scanner lemmas -/

theorem containsSub_nil_of_cons (c : Char) (p : List Char) :
    containsSub (c :: p) [] = false := rfl

theorem containsSub_false_of_missing_char (p s : List Char) (x : Char)
    (hx : x ∈ p) (hs : x ∉ s) : containsSub p s = false := by
  cases h : containsSub p s with
  | false => rfl
  | true => exact absurd (containsSub_mem p s h x hx) hs

theorem findAcgBlock_eq_none (s : List Char)
    (h : containsSub acgStartLit s = false) : findAcgBlock s = none := by
  induction s with
  | nil => rfl
  | cons c t ih =>
    rw [containsSub_cons_eq, Bool.or_eq_false_iff] at h
    rw [findAcgBlock, if_neg (by simp [h.1]), ih h.2]

/-- The IGM regex matches at the head of a well-formed marker, consuming it
entirely. -/
theorem matchIgmAt_build (cid pre loc rest : List Char)
    (hcid : ∀ x ∈ cid, isWordChar x = true) (hcidne : cid ≠ [])
    (hpre : ∀ x ∈ pre, isHexChar x = true) (h8 : 8 ≤ pre.length) (h10 : pre.length ≤ 10)
    (hloc : ∀ x ∈ loc, x ≠ ']') (hlocne : loc ≠ []) :
    matchIgmAt ('[' :: (cid ++ ':' :: (pre ++ ':' :: (loc ++ ']' :: rest)))) =
      some (cid, pre, loc, cid.length + pre.length + loc.length + 4) := by
  have htw1 : List.takeWhile isWordChar (cid ++ ':' :: (pre ++ ':' :: (loc ++ ']' :: rest))) = cid :=
    takeWhile_append_stop _ _ _ _ hcid (by decide)
  have hdw1 : List.dropWhile isWordChar (cid ++ ':' :: (pre ++ ':' :: (loc ++ ']' :: rest))) =
      ':' :: (pre ++ ':' :: (loc ++ ']' :: rest)) :=
    dropWhile_append_stop _ _ _ _ hcid (by decide)
  have htw2 : List.takeWhile isHexChar (pre ++ ':' :: (loc ++ ']' :: rest)) = pre :=
    takeWhile_append_stop _ _ _ _ hpre (by decide)
  have hdw2 : List.dropWhile isHexChar (pre ++ ':' :: (loc ++ ']' :: rest)) =
      ':' :: (loc ++ ']' :: rest) :=
    dropWhile_append_stop _ _ _ _ hpre (by decide)
  have htw3 : List.takeWhile (fun c => c ≠ ']') (loc ++ ']' :: rest) = loc :=
    takeWhile_append_stop _ _ _ _ (fun x hx => by simp [hloc x hx]) (by decide)
  have hdw3 : List.dropWhile (fun c => c ≠ ']') (loc ++ ']' :: rest) = ']' :: rest :=
    dropWhile_append_stop _ _ _ _ (fun x hx => by simp [hloc x hx]) (by decide)
  rw [matchIgmAt, if_pos rfl, htw1, hdw1]
  cases cid with
  | nil => exact absurd rfl hcidne
  | cons c0 ct =>
    simp only
    rw [htw2, if_pos (by simp only [Bool.and_eq_true, decide_eq_true_eq]; exact ⟨h8, h10⟩),
      hdw2]
    simp only
    rw [htw3, hdw3]
    cases loc with
    | nil => exact absurd rfl hlocne
    | cons l0 lt => rfl

/-- The RM regex matches at the head of a well-formed marker, consuming it
entirely. -/
theorem matchRmAt_build (rid ty dep rest : List Char)
    (hrid : ∀ x ∈ rid, isWordChar x = true) (hridne : rid ≠ [])
    (hty : ∀ x ∈ ty, x ≠ ':' ∧ x ≠ ')') (htyne : ty ≠ [])
    (hdep : ∀ x ∈ dep, x ≠ ')') (hdepne : dep ≠ []) :
    matchRmAt ('(' :: (rid ++ ':' :: (ty ++ ':' :: (dep ++ ')' :: rest)))) =
      some (rid, ty, dep, rid.length + ty.length + dep.length + 4) := by
  have htw1 : List.takeWhile isWordChar (rid ++ ':' :: (ty ++ ':' :: (dep ++ ')' :: rest))) = rid :=
    takeWhile_append_stop _ _ _ _ hrid (by decide)
  have hdw1 : List.dropWhile isWordChar (rid ++ ':' :: (ty ++ ':' :: (dep ++ ')' :: rest))) =
      ':' :: (ty ++ ':' :: (dep ++ ')' :: rest)) :=
    dropWhile_append_stop _ _ _ _ hrid (by decide)
  have htw2 : List.takeWhile (fun c => c ≠ ':' && c ≠ ')') (ty ++ ':' :: (dep ++ ')' :: rest)) = ty :=
    takeWhile_append_stop _ _ _ _ (fun x hx => by simp [(hty x hx).1, (hty x hx).2]) (by decide)
  have hdw2 : List.dropWhile (fun c => c ≠ ':' && c ≠ ')') (ty ++ ':' :: (dep ++ ')' :: rest)) =
      ':' :: (dep ++ ')' :: rest) :=
    dropWhile_append_stop _ _ _ _ (fun x hx => by simp [(hty x hx).1, (hty x hx).2]) (by decide)
  have htw3 : List.takeWhile (fun c => c ≠ ')') (dep ++ ')' :: rest) = dep :=
    takeWhile_append_stop _ _ _ _ (fun x hx => by simp [hdep x hx]) (by decide)
  have hdw3 : List.dropWhile (fun c => c ≠ ')') (dep ++ ')' :: rest) = ')' :: rest :=
    dropWhile_append_stop _ _ _ _ (fun x hx => by simp [hdep x hx]) (by decide)
  rw [matchRmAt, if_pos rfl, htw1, hdw1]
  cases rid with
  | nil => exact absurd rfl hridne
  | cons r0 rt =>
    simp only
    rw [htw2, hdw2]
    cases ty with
    | nil => exact absurd rfl htyne
    | cons t0 tt =>
      simp only
      rw [htw3, hdw3]
      cases dep with
      | nil => exact absurd rfl hdepne
      | cons d0 dt => rfl

theorem matchIgmAt_none_of_head (c : Char) (t : List Char) (h : c ≠ '[') :
    matchIgmAt (c :: t) = none := by
  rw [matchIgmAt, if_neg h]

theorem matchRmAt_none_of_head (c : Char) (t : List Char) (h : c ≠ '(') :
    matchRmAt (c :: t) = none := by
  rw [matchRmAt, if_neg h]

theorem findIgmsAux_no_bracket (s : List Char) (fuel : Nat) (pos : Nat)
    (h : ∀ c ∈ s, c ≠ '[') : findIgmsAux fuel s pos = [] := by
  induction s generalizing fuel pos with
  | nil => cases fuel <;> rfl
  | cons c t ih =>
    cases fuel with
    | zero => rfl
    | succ f =>
      rw [findIgmsAux, matchIgmAt_none_of_head c t (h c (by simp))]
      exact ih f (pos + 1) (fun x hx => h x (by simp [hx]))

theorem findRmsAux_no_paren (s : List Char) (fuel : Nat)
    (h : ∀ c ∈ s, c ≠ '(') : findRmsAux fuel s = [] := by
  induction s generalizing fuel with
  | nil => cases fuel <;> rfl
  | cons c t ih =>
    cases fuel with
    | zero => rfl
    | succ f =>
      rw [findRmsAux, matchRmAt_none_of_head c t (h c (by simp))]
      exact ih f (fun x hx => h x (by simp [hx]))

/-- A string that is exactly one IGM match yields exactly one scanner hit. -/
theorem findIgmMatches_single (s : List Char) (cid hex loc : List Char) (len : Nat)
    (hm : matchIgmAt s = some (cid, hex, loc, len)) (hlen : s.length = len) :
    findIgmMatches s = [⟨0, len, cid, hex, loc⟩] := by
  cases s with
  | nil => rw [matchIgmAt] at hm; cases hm
  | cons c t =>
    have hfuel : (c :: t).length + 1 = t.length + 1 + 1 := by simp
    have hd : (c :: t).drop len = [] := by
      rw [← hlen]; exact List.drop_length _
    have hnil : ∀ pos, findIgmsAux (t.length + 1) [] pos = [] := by
      intro pos; cases t <;> rfl
    rw [findIgmMatches, hfuel, findIgmsAux, hm]
    show (IgmMatch.mk 0 (0 + len) cid hex loc ::
        findIgmsAux (t.length + 1) (List.drop len (c :: t)) (0 + len)) = _
    rw [hd, hnil]
    simp

/-- A string that is exactly one RM match yields exactly one scanner hit. -/
theorem findRms_single (s : List Char) (rid ty dep : List Char) (len : Nat)
    (hm : matchRmAt s = some (rid, ty, dep, len)) (hlen : s.length = len) :
    findRmsAux (s.length + 1) s =
      [{ relationship_id := String.mk rid, type := String.mk ty,
         dep_claims := (splitComma dep).map String.mk }] := by
  cases s with
  | nil => rw [matchRmAt] at hm; cases hm
  | cons c t =>
    have hfuel : (c :: t).length + 1 = t.length + 1 + 1 := by simp
    have hd : (c :: t).drop len = [] := by
      rw [← hlen]; exact List.drop_length _
    have hnil : findRmsAux (t.length + 1) [] = [] := by
      cases t <;> rfl
    rw [hfuel, findRmsAux, hm]
    show (Rm.mk (String.mk rid) (String.mk ty) ((splitComma dep).map String.mk) ::
        findRmsAux (t.length + 1) (List.drop len (c :: t))) = _
    rw [hd, hnil]

theorem string_mk_data (s : String) : String.mk s.data = s := rfl

theorem string_data_ne_nil (s : String) (h : s ≠ "") : s.data ≠ [] := by
  intro hd
  exact h (by rw [← string_mk_data s, hd])

theorem all_imp_ne (p : Char → Bool) (l : List Char) (hall : l.all p = true)
    (x : Char) (hx : p x = false) : x ∉ l := by
  intro hmem
  rw [List.all_eq_true.mp hall x hmem] at hx
  cases hx

theorem ne_of_pred (p : Char → Bool) (x : Char) (hx : p x = false) :
    ∀ c, p c = true → c ≠ x := by
  intro c hc he
  rw [he, hx] at hc
  cases hc

/-! ## C2: round trip for claim markers -/

/-- C2 (amended): for a non-empty word-character claim id, an all-hex `shi`
of length at least 8, and a non-empty `location_selector` containing neither
the claim-end delimiter `]` nor the registry start-marker line, parsing the
marker built by `construct_igm` yields exactly one claim marker carrying the
claim id, the first 10 characters of `shi`, and the location selector. -/
theorem igm_round_trip (claim_id shi loc : String) (uri : Option String) (m : String)
    (hcid : claim_id.data.all isWordChar = true) (hcidne : claim_id ≠ "")
    (hshi : shi.data.all isHexChar = true) (hlen : 8 ≤ shi.length)
    (hloc : (']' : Char) ∉ loc.data) (hlocne : loc ≠ "")
    (hnostart : containsSub acgStartLit loc.data = false)
    (hok : construct_igm ⟨some shi, some loc, uri⟩ claim_id = .ok m) :
    ∃ rms, parse_acg_data m =
      .ok ([⟨claim_id, String.mk (shi.data.take 10), loc, ""⟩], rms, none, none) := by
  have hshine : shi ≠ "" := by
    intro h
    rw [h] at hlen
    simp [String.length] at hlen
  have hm : m = "[" ++ claim_id ++ ":" ++ String.mk (shi.data.take SHI_PREFIX_LENGTH)
      ++ ":" ++ loc ++ "]" := by
    simp only [construct_igm, hshine, hlocne, decide_eq_true_eq, Bool.or_eq_true, or_self,
      if_false, Except.ok.injEq] at hok
    exact hok.symm
  have hdata : m.data = '[' :: (claim_id.data ++ ':' ::
      (shi.data.take 10 ++ ':' :: (loc.data ++ ']' :: []))) := by
    rw [hm]
    show ("[" ++ claim_id ++ ":" ++ String.mk (shi.data.take SHI_PREFIX_LENGTH)
      ++ ":" ++ loc ++ "]").data = _
    simp [String.data_append, SHI_PREFIX_LENGTH]
  have hcid' : ∀ x ∈ claim_id.data, isWordChar x = true := List.all_eq_true.mp hcid
  have htake : ∀ x ∈ shi.data.take 10, isHexChar x = true := by
    intro x hx
    exact List.all_eq_true.mp hshi x (List.take_subset 10 shi.data hx)
  have hlentake : (shi.data.take 10).length = min 10 shi.data.length :=
    List.length_take 10 shi.data
  have hlen' : 8 ≤ shi.data.length := hlen
  have hloc' : ∀ x ∈ loc.data, x ≠ ']' := by
    intro x hx he
    exact hloc (he ▸ hx)
  have hmatch := matchIgmAt_build claim_id.data (shi.data.take 10) loc.data []
    hcid' (string_data_ne_nil claim_id hcidne) htake
    (by rw [hlentake]; omega) (by rw [hlentake]; omega)
    hloc' (string_data_ne_nil loc hlocne)
  have hlenm : m.data.length =
      claim_id.data.length + (shi.data.take 10).length + loc.data.length + 4 := by
    rw [hdata]
    simp
    omega
  have hsingle := findIgmMatches_single m.data claim_id.data (shi.data.take 10) loc.data
    (claim_id.data.length + (shi.data.take 10).length + loc.data.length + 4)
    (by rw [hdata]; exact hmatch) hlenm
  have hblock : findAcgBlock m.data = none := by
    apply findAcgBlock_eq_none
    rw [hdata]
    have h1 : containsSub acgStartLit (loc.data ++ ']' :: []) = false :=
      containsSub_sep_block _ _ _ ']' (by decide) hnostart (by decide)
    have h2 : containsSub acgStartLit (shi.data.take 10 ++ ':' :: (loc.data ++ ']' :: [])) = false := by
      apply containsSub_sep_block _ _ _ ':' (by decide) _ h1
      exact containsSub_false_of_missing_char _ _ ' ' (by decide)
        (all_imp_ne isHexChar _ (by rw [List.all_eq_true]; exact htake) ' ' (by decide))
    have h3 : containsSub acgStartLit (claim_id.data ++ ':' ::
        (shi.data.take 10 ++ ':' :: (loc.data ++ ']' :: []))) = false := by
      apply containsSub_sep_block _ _ _ ':' (by decide) _ h2
      exact containsSub_false_of_missing_char _ _ ' ' (by decide)
        (all_imp_ne isWordChar _ hcid ' ' (by decide))
    exact containsSub_sep_block _ [] _ '[' (by decide) (by decide) h3
  refine ⟨findRelMarkers m.data, ?_⟩
  rw [parse_acg_data, hblock]
  have hmarkers : findClaimMarkers m.data =
      [⟨claim_id, String.mk (shi.data.take 10), loc, ""⟩] := by
    rw [findClaimMarkers, hsingle]
    simp [attachContexts, pySlice, pyStrip, string_mk_data]
  rw [hmarkers]

/-- C2 witness: a concrete instantiation of the round trip. -/
theorem igm_round_trip_witness :
    ∃ rms, parse_acg_data "[C1:abcdef0123:p]" =
      .ok ([⟨"C1", String.mk (("abcdef0123" : String).data.take 10), "p", ""⟩],
        rms, none, none) :=
  igm_round_trip "C1" "abcdef0123" "p" none "[C1:abcdef0123:p]"
    (by decide) (by decide) (by decide) (by decide) (by decide) (by decide)
    (by decide) rfl

/-- C2 counterexample: the claim as stated fails on an empty claim id (the
marker is built but parses to zero claim markers) and on a location selector
that embeds a registry block with non-dict JSON (the marker is built and even
matched, but `parse_acg_data` raises `TypeError`), even though both inputs
satisfy the claim's stated conditions. -/
theorem igm_round_trip_cex :
    (construct_igm ⟨some "abcdef0123", some "loc", none⟩ "" = .ok "[:abcdef0123:loc]"
      ∧ parse_acg_data "[:abcdef0123:loc]" = .ok ([], [], none, none))
    ∧ (construct_igm ⟨some "abcdef0123",
        some "x\n--- ACG_START ---\n3\n--- ACG_END ---", none⟩ "C1" =
        .ok "[C1:abcdef0123:x\n--- ACG_START ---\n3\n--- ACG_END ---]"
      ∧ parse_acg_data "[C1:abcdef0123:x\n--- ACG_START ---\n3\n--- ACG_END ---]" =
        .error .typeError) :=
  ⟨⟨rfl, rfl⟩, ⟨rfl, rfl⟩⟩

/-! ## C6: the 8..10 hex-prefix window of the claim-marker grammar -/

theorem hex_ne_of (c : Char) (x : Char) (hx : isHexChar x = false)
    (hc : isHexChar c = true) : c ≠ x := by
  intro he
  rw [he, hx] at hc
  cases hc

/-- C6: in a claim marker `[C1:h:loc]` whose `h` is all hex, the parser
yields no claim marker when `h` is shorter than 8 characters, and exactly one
claim marker (carrying `h` verbatim) when `h` has 8 to 10 characters. -/
theorem shi_prefix_length_boundary (h : String) (hhex : h.data.all isHexChar = true) :
    (h.length < 8 →
      parse_acg_data ("[C1:" ++ h ++ ":loc]") = .ok ([], [], none, none))
    ∧ (8 ≤ h.length → h.length ≤ 10 →
      parse_acg_data ("[C1:" ++ h ++ ":loc]") =
        .ok ([⟨"C1", h, "loc", ""⟩], [], none, none)) := by
  have hhex' : ∀ x ∈ h.data, isHexChar x = true := List.all_eq_true.mp hhex
  have hdata : ("[C1:" ++ h ++ ":loc]").data =
      '[' :: (['C', '1'] ++ ':' :: (h.data ++ ':' :: (['l', 'o', 'c'] ++ ']' :: []))) := by
    simp [String.data_append]
  have htail : ∀ x : Char, isHexChar x = false →
      x ∉ (['C', '1', ':', 'l', 'o', 'c', ']'] : List Char) →
      ∀ c ∈ (['C', '1'] ++ ':' :: (h.data ++ ':' :: (['l', 'o', 'c'] ++ ([']'] : List Char)))),
        c ≠ x := by
    intro x hx hmx
    refine List.forall_mem_append.mpr ⟨?_, ?_⟩
    · intro c hc he
      apply hmx
      rw [← he]
      exact (show (['C', '1'] : List Char) ⊆ _ by decide) hc
    refine List.forall_mem_cons.mpr ⟨?_, ?_⟩
    · intro he; apply hmx; rw [← he]; decide
    refine List.forall_mem_append.mpr ⟨?_, ?_⟩
    · exact fun c hc => hex_ne_of c x hx (hhex' c hc)
    refine List.forall_mem_cons.mpr ⟨?_, ?_⟩
    · intro he; apply hmx; rw [← he]; decide
    · intro c hc he
      apply hmx
      rw [← he]
      exact (show (['l', 'o', 'c'] ++ ([']'] : List Char)) ⊆ _ by decide) hc
  have hfull : ∀ x : Char, isHexChar x = false →
      x ∉ (['[', 'C', '1', ':', 'l', 'o', 'c', ']'] : List Char) →
      ∀ c ∈ ("[C1:" ++ h ++ ":loc]").data, c ≠ x := by
    intro x hx hmx
    rw [hdata]
    refine List.forall_mem_cons.mpr ⟨?_, ?_⟩
    · intro he; apply hmx; rw [← he]; decide
    · exact htail x hx (fun hm => hmx (List.mem_cons_of_mem _ hm))
  have hblock : findAcgBlock ("[C1:" ++ h ++ ":loc]").data = none := by
    apply findAcgBlock_eq_none
    apply containsSub_false_of_missing_char _ _ '-' (by decide)
    intro hmem
    exact hfull '-' (by decide) (by decide) '-' hmem rfl
  have hrms : findRelMarkers ("[C1:" ++ h ++ ":loc]").data = [] := by
    rw [findRelMarkers]
    exact findRmsAux_no_paren _ _ (hfull '(' (by decide) (by decide))
  constructor
  · intro hshort
    have hm : matchIgmAt (("[C1:" ++ h ++ ":loc]").data) = none := by
      rw [hdata, matchIgmAt, if_pos rfl]
      have htw1 : List.takeWhile isWordChar
          (['C', '1'] ++ ':' :: (h.data ++ ':' :: (['l', 'o', 'c'] ++ ']' :: []))) =
          ['C', '1'] :=
        takeWhile_append_stop _ _ _ _ (by decide) (by decide)
      have hdw1 : List.dropWhile isWordChar
          (['C', '1'] ++ ':' :: (h.data ++ ':' :: (['l', 'o', 'c'] ++ ']' :: []))) =
          ':' :: (h.data ++ ':' :: (['l', 'o', 'c'] ++ ']' :: [])) :=
        dropWhile_append_stop _ _ _ _ (by decide) (by decide)
      rw [htw1, hdw1]
      simp only
      have htw2 : List.takeWhile isHexChar (h.data ++ ':' :: (['l', 'o', 'c'] ++ ']' :: [])) =
          h.data :=
        takeWhile_append_stop _ _ _ _ hhex' (by decide)
      rw [htw2, if_neg]
      simp only [Bool.and_eq_true, decide_eq_true_eq, not_and]
      intro h8
      have hld : h.length = h.data.length := rfl
      exact absurd h8 (by omega)
    have higms : findIgmMatches (("[C1:" ++ h ++ ":loc]").data) = [] := by
      rw [findIgmMatches]
      rw [hdata]
      rw [hdata] at hm
      have hlen2 : ('[' :: (['C', '1'] ++ ':' :: (h.data ++ ':' ::
          (['l', 'o', 'c'] ++ ']' :: [])))).length =
          (['C', '1'] ++ ':' :: (h.data ++ ':' :: (['l', 'o', 'c'] ++ ']' :: []))).length + 1 := by
        simp
      rw [hlen2, findIgmsAux, hm]
      apply findIgmsAux_no_bracket
      exact htail '[' (by decide) (by decide)
    rw [parse_acg_data, hblock, findClaimMarkers, higms, hrms]
    rfl
  · intro h8 h10
    have hmatch := matchIgmAt_build ['C', '1'] h.data ['l', 'o', 'c'] []
      (by decide) (by decide) hhex' h8 h10 (by decide) (by decide)
    have hlenm : ("[C1:" ++ h ++ ":loc]").data.length =
        (['C', '1'] : List Char).length + h.data.length + (['l', 'o', 'c'] : List Char).length + 4 := by
      rw [hdata]
      simp
      omega
    have hsingle := findIgmMatches_single _ ['C', '1'] h.data ['l', 'o', 'c'] _
      (by rw [hdata]; exact hmatch) hlenm
    rw [parse_acg_data, hblock, findClaimMarkers, hsingle, hrms]
    simp [attachContexts, pySlice, pyStrip, string_mk_data]

/-- C6 witness: at 7 hex characters nothing is matched; at 8 and at 10
exactly one marker is. -/
theorem shi_prefix_length_boundary_witness :
    parse_acg_data "[C1:abcdef0:loc]" = .ok ([], [], none, none)
    ∧ parse_acg_data "[C1:abcdef01:loc]" =
      .ok ([⟨"C1", "abcdef01", "loc", ""⟩], [], none, none)
    ∧ parse_acg_data "[C1:abcdef0123:loc]" =
      .ok ([⟨"C1", "abcdef0123", "loc", ""⟩], [], none, none) :=
  ⟨(shi_prefix_length_boundary "abcdef0" (by decide)).1 (by decide),
   (shi_prefix_length_boundary "abcdef01" (by decide)).2 (by decide) (by decide),
   (shi_prefix_length_boundary "abcdef0123" (by decide)).2 (by decide) (by decide)⟩

/-! ## C4: round trip for relationship markers -/

theorem splitComma_no_comma (l : List Char) (h : (',' : Char) ∉ l) :
    splitComma l = [l] := by
  induction l with
  | nil => rfl
  | cons c t ih =>
    have hc : c ≠ ',' := fun he => h (he ▸ List.mem_cons_self c t)
    rw [splitComma, if_neg hc, ih (fun hm => h (List.mem_cons_of_mem c hm))]

theorem splitComma_append (a b : List Char) (h : (',' : Char) ∉ a) :
    splitComma (a ++ ',' :: b) = a :: splitComma b := by
  induction a with
  | nil => simp [splitComma]
  | cons c t ih =>
    have hc : c ≠ ',' := fun he => h (he ▸ List.mem_cons_self c t)
    rw [List.cons_append, splitComma, if_neg hc,
      ih (fun hm => h (List.mem_cons_of_mem c hm))]

theorem map_mk_data (l : List String) : (l.map String.data).map String.mk = l := by
  induction l with
  | nil => rfl
  | cons d t ih => simp [string_mk_data, ih]

theorem joinComma_cons_cons (d e : String) (r : List String) :
    (joinComma (d :: e :: r)).data = d.data ++ ',' :: (joinComma (e :: r)).data := by
  rw [joinComma]
  simp [String.data_append]

theorem join_split (deps : List String) (hne : deps ≠ [])
    (h : ∀ d ∈ deps, (',' : Char) ∉ d.data) :
    splitComma (joinComma deps).data = deps.map String.data := by
  induction deps with
  | nil => exact absurd rfl hne
  | cons d t ih =>
    cases t with
    | nil =>
      rw [joinComma]
      rw [splitComma_no_comma d.data (h d (by simp))]
      rfl
    | cons e r =>
      rw [joinComma_cons_cons, splitComma_append _ _ (h d (by simp)),
        ih (List.cons_ne_nil e r) (fun x hx => h x (List.mem_cons_of_mem d hx))]
      rfl

theorem join_forall_ne (deps : List String) (x : Char) (hx : x ≠ ',')
    (h : ∀ d ∈ deps, ∀ c ∈ d.data, c ≠ x) :
    ∀ c ∈ (joinComma deps).data, c ≠ x := by
  induction deps with
  | nil => intro c hc; cases hc
  | cons d t ih =>
    cases t with
    | nil => exact fun c hc => h d (by simp) c hc
    | cons e r =>
      rw [joinComma_cons_cons]
      refine List.forall_mem_append.mpr ⟨fun c hc => h d (by simp) c hc, ?_⟩
      refine List.forall_mem_cons.mpr ⟨fun he => hx he.symm, ?_⟩
      exact ih (fun y hy => h y (List.mem_cons_of_mem d hy))

theorem contains_join_false (p : List Char) (deps : List String) (hp : p ≠ [])
    (hc : (',' : Char) ∉ p)
    (h : ∀ d ∈ deps, containsSub p d.data = false) :
    containsSub p (joinComma deps).data = false := by
  induction deps with
  | nil =>
    cases p with
    | nil => exact absurd rfl hp
    | cons a q => rfl
  | cons d t ih =>
    cases t with
    | nil => exact h d (by simp)
    | cons e r =>
      rw [joinComma_cons_cons]
      exact containsSub_sep_block p _ _ ',' hc (h d (by simp))
        (ih (fun y hy => h y (List.mem_cons_of_mem d hy)))

/-- C4 (amended): for a word-character relationship id, a non-empty relation
type containing neither `:` nor `)`, and a non-empty dependency list whose
comma-join is non-empty and whose entries contain neither `,` nor `)`, none
of which embeds the registry start-marker line, parsing the marker built by
`construct_relationship_marker` yields exactly one relationship marker with
the same relationship id, the same type, and the dependency list recovered
by splitting the joined ids on `,`. -/
theorem rm_round_trip (rid ty : String) (deps : List String) (m : String)
    (hrid : rid.data.all isWordChar = true)
    (hty1 : (':' : Char) ∉ ty.data) (hty2 : (')' : Char) ∉ ty.data)
    (hdeps : ∀ d ∈ deps, (',' : Char) ∉ d.data ∧ (')' : Char) ∉ d.data)
    (hjoin : joinComma deps ≠ "")
    (hsty : containsSub acgStartLit ty.data = false)
    (hsdeps : ∀ d ∈ deps, containsSub acgStartLit d.data = false)
    (hok : construct_relationship_marker rid ty deps = .ok m) :
    ∃ igms, parse_acg_data m = .ok (igms, [⟨rid, ty, deps⟩], none, none) := by
  have hridne : rid ≠ "" := by
    intro h
    rw [construct_relationship_marker] at hok
    simp [h] at hok
  have htyne : ty ≠ "" := by
    intro h
    rw [construct_relationship_marker] at hok
    simp [h] at hok
  have hdepsne : deps ≠ [] := by
    intro h
    rw [construct_relationship_marker] at hok
    simp [h] at hok
  have hie : deps.isEmpty = false := by
    cases deps with
    | nil => exact absurd rfl hdepsne
    | cons d t => rfl
  have hm : m = "(" ++ rid ++ ":" ++ ty ++ ":" ++ joinComma deps ++ ")" := by
    simp only [construct_relationship_marker, hridne, htyne, hie, decide_eq_true_eq,
      Bool.or_eq_true, or_self, or_false, if_false, Except.ok.injEq] at hok
    rw [if_neg (by simp)] at hok
    injection hok with h
    exact h.symm
  have hdata : m.data = '(' :: (rid.data ++ ':' ::
      (ty.data ++ ':' :: ((joinComma deps).data ++ ')' :: []))) := by
    rw [hm]
    show ("(" ++ rid ++ ":" ++ ty ++ ":" ++ joinComma deps ++ ")").data = _
    simp [String.data_append]
  have hrid' : ∀ x ∈ rid.data, isWordChar x = true := List.all_eq_true.mp hrid
  have hty' : ∀ x ∈ ty.data, x ≠ ':' ∧ x ≠ ')' := by
    intro x hx
    exact ⟨fun he => hty1 (he ▸ hx), fun he => hty2 (he ▸ hx)⟩
  have hdep' : ∀ c ∈ (joinComma deps).data, c ≠ ')' :=
    join_forall_ne deps ')' (by decide)
      (fun d hd c hc he => (hdeps d hd).2 (he ▸ hc))
  have hjoinne : (joinComma deps).data ≠ [] := string_data_ne_nil _ hjoin
  have hmatch := matchRmAt_build rid.data ty.data (joinComma deps).data []
    hrid' (string_data_ne_nil rid hridne) hty' (string_data_ne_nil ty htyne)
    hdep' hjoinne
  have hlenm : m.data.length =
      rid.data.length + ty.data.length + (joinComma deps).data.length + 4 := by
    rw [hdata]
    simp
    omega
  have hsingle := findRms_single m.data rid.data ty.data (joinComma deps).data _
    (by rw [hdata]; exact hmatch) hlenm
  have hblock : findAcgBlock m.data = none := by
    apply findAcgBlock_eq_none
    rw [hdata]
    have h1 : containsSub acgStartLit ((joinComma deps).data ++ ')' :: []) = false :=
      containsSub_sep_block _ _ _ ')' (by decide)
        (contains_join_false _ _ (by decide) (by decide) hsdeps) (by decide)
    have h2 : containsSub acgStartLit (ty.data ++ ':' ::
        ((joinComma deps).data ++ ')' :: [])) = false :=
      containsSub_sep_block _ _ _ ':' (by decide) hsty h1
    have h3 : containsSub acgStartLit (rid.data ++ ':' :: (ty.data ++ ':' ::
        ((joinComma deps).data ++ ')' :: []))) = false := by
      apply containsSub_sep_block _ _ _ ':' (by decide) _ h2
      exact containsSub_false_of_missing_char _ _ ' ' (by decide)
        (all_imp_ne isWordChar _ hrid ' ' (by decide))
    exact containsSub_sep_block _ [] _ '(' (by decide) (by decide) h3
  refine ⟨findClaimMarkers m.data, ?_⟩
  rw [parse_acg_data, hblock]
  have hrms : findRelMarkers m.data = [⟨rid, ty, deps⟩] := by
    rw [findRelMarkers, hsingle,
      join_split deps hdepsne (fun d hd => (hdeps d hd).1), map_mk_data]
  rw [hrms]

/-- C4 witness: a concrete instantiation of the relationship-marker round
trip. -/
theorem rm_round_trip_witness :
    ∃ igms, parse_acg_data "(R1:SUPPORTS:C1,C2)" =
      .ok (igms, [⟨"R1", "SUPPORTS", ["C1", "C2"]⟩], none, none) :=
  rm_round_trip "R1" "SUPPORTS" ["C1", "C2"] "(R1:SUPPORTS:C1,C2)"
    (by decide) (by decide) (by decide)
    (by decide)
    (by decide) (by decide)
    (by decide)
    rfl

/-- C4 counterexample: the claim as stated fails on the dependency list
`[""]` (the marker is built but parses to zero relationship markers) and on
a relation type embedding a registry block with non-dict JSON (the marker is
built but `parse_acg_data` raises `TypeError`), both within the claim's
stated conditions. -/
theorem rm_round_trip_cex :
    (construct_relationship_marker "R1" "SUPPORTS" [""] = .ok "(R1:SUPPORTS:)"
      ∧ parse_acg_data "(R1:SUPPORTS:)" = .ok ([], [], none, none))
    ∧ (construct_relationship_marker "R1" "x\n--- ACG_START ---\n3\n--- ACG_END ---"
        ["C1"] = .ok "(R1:x\n--- ACG_START ---\n3\n--- ACG_END ---:C1)"
      ∧ parse_acg_data "(R1:x\n--- ACG_START ---\n3\n--- ACG_END ---:C1)" =
        .error .typeError) :=
  ⟨⟨rfl, rfl⟩, ⟨rfl, rfl⟩⟩

/-! ## C1: behavior on a malformed registry block (code bug)

The spec asserts every malformed-registry case is caught and yields
`(None, None)`.  The code catches only `json.JSONDecodeError`: an SSR list
entry lacking the `"SHI"` key raises an uncaught `KeyError` out of
`parse_acg_data`.  The first conjunct evaluates the parser at such an input;
the remaining conjuncts confirm the cases the claim gets right (invalid
JSON, missing lists) do return the markers with `(None, None)`. -/

/-- C1: at a registry block whose `SSR` list holds an entry without `"SHI"`,
`parse_acg_data` raises `KeyError` (so the claim's "does not raise" fails),
while a block with invalid JSON, or one whose JSON lacks the lists, is
caught and yields the markers together with `(None, None)`. -/
theorem malformed_registry_behavior :
    parse_acg_data ("Fact [C1:abcdef0123:p]. \n--- ACG_START ---\n\x7b\"SSR\": [\x7b\x7d], \"VAR\": []\x7d\n--- ACG_END ---") =
      .error (.keyError "SHI")
    ∧ parse_acg_data ("Fact [C1:abcdef0123:p]. \n--- ACG_START ---\nnot json\n--- ACG_END ---") =
      .ok ([⟨"C1", "abcdef0123", "p", "Fact"⟩], [], none, none)
    ∧ parse_acg_data ("Fact [C1:abcdef0123:p]. \n--- ACG_START ---\n\x7b\"other\": 1\x7d\n--- ACG_END ---") =
      .ok ([⟨"C1", "abcdef0123", "p", "Fact"⟩], [], none, none) :=
  ⟨rfl, rfl, rfl⟩

/-! ## C5: the claim context attached to each claim marker -/

theorem parse_acg_data_components (text : String) (igms : List Igm) (rms : List Rm)
    (ssr var : Option (List (JVal × JVal)))
    (hp : parse_acg_data text = .ok (igms, rms, ssr, var)) :
    igms = findClaimMarkers text.data ∧ rms = findRelMarkers text.data := by
  unfold parse_acg_data at hp
  repeat' split at hp
  all_goals
    first
    | (simp only [Except.ok.injEq, Prod.mk.injEq] at hp
       exact ⟨hp.1.symm, hp.2.1.symm⟩)
    | cases hp

theorem attachContexts_length (text : List Char) (ms : List IgmMatch) (pe : Nat) :
    (attachContexts text pe ms).length = ms.length := by
  induction ms generalizing pe with
  | nil => rfl
  | cons m rest ih => simp [attachContexts, ih]

theorem attachContexts_getD_context (text : List Char) (ms : List IgmMatch) :
    ∀ (pe i : Nat), i < ms.length →
      ((attachContexts text pe ms).getD i ⟨"", "", "", ""⟩).claim_context =
        String.mk (pyStrip (pySlice text
          (if i = 0 then pe else (ms.getD (i - 1) ⟨0, 0, [], [], []⟩).mstop)
          ((ms.getD i ⟨0, 0, [], [], []⟩).mstart))) := by
  induction ms with
  | nil => intro pe i hi; cases hi
  | cons m rest ih =>
    intro pe i hi
    cases i with
    | zero => rfl
    | succ j =>
      have hj : j < rest.length := by simpa using hi
      have h := ih m.mstop j hj
      rw [attachContexts]
      show ((attachContexts text m.mstop rest).getD j ⟨"", "", "", ""⟩).claim_context = _
      rw [h]
      cases j with
      | zero => rfl
      | succ k => rfl

/-- C5: for every successfully parsed document, the `i`-th claim marker's
`claim_context` is the stripped slice of the input text between the end of
the previous match (document start for the first) and the start of the
current match; on the spec's concrete example the two contexts are
`"Sentence A."` and `". Sentence B."`. -/
theorem claim_context_spec :
    (∀ (text : String) (igms : List Igm) (rms : List Rm) ssr var,
      parse_acg_data text = .ok (igms, rms, ssr, var) →
      igms.length = (findIgmMatches text.data).length ∧
      ∀ i, i < igms.length →
        (igms.getD i ⟨"", "", "", ""⟩).claim_context =
          String.mk (pyStrip (pySlice text.data
            (if i = 0 then 0 else
              ((findIgmMatches text.data).getD (i - 1) ⟨0, 0, [], [], []⟩).mstop)
            (((findIgmMatches text.data).getD i ⟨0, 0, [], [], []⟩).mstart))))
    ∧ parse_acg_data "Sentence A. [C1:abcdef0123:loc1]. Sentence B. [C2:abcdef0123:loc2]." =
      .ok ([⟨"C1", "abcdef0123", "loc1", "Sentence A."⟩,
            ⟨"C2", "abcdef0123", "loc2", ". Sentence B."⟩], [], none, none) := by
  constructor
  · intro text igms rms ssr var hp
    obtain ⟨higms, _⟩ := parse_acg_data_components text igms rms ssr var hp
    subst higms
    constructor
    · rw [findClaimMarkers, attachContexts_length]
    · intro i hi
      rw [findClaimMarkers] at hi ⊢
      rw [attachContexts_length] at hi
      exact attachContexts_getD_context text.data (findIgmMatches text.data) 0 i hi
  · rfl

/-- C5 witness: the general context property instantiated on the concrete
text of the claim, at the second marker. -/
theorem claim_context_spec_witness :
    (([⟨"C1", "abcdef0123", "loc1", "Sentence A."⟩,
       ⟨"C2", "abcdef0123", "loc2", ". Sentence B."⟩] : List Igm).getD 1
        ⟨"", "", "", ""⟩).claim_context =
      String.mk (pyStrip (pySlice
        ("Sentence A. [C1:abcdef0123:loc1]. Sentence B. [C2:abcdef0123:loc2]." : String).data
        (if 1 = 0 then 0 else
          ((findIgmMatches ("Sentence A. [C1:abcdef0123:loc1]. Sentence B. [C2:abcdef0123:loc2]." : String).data).getD
            (1 - 1) ⟨0, 0, [], [], []⟩).mstop)
        (((findIgmMatches ("Sentence A. [C1:abcdef0123:loc1]. Sentence B. [C2:abcdef0123:loc2]." : String).data).getD
          1 ⟨0, 0, [], [], []⟩).mstart))) :=
  (claim_context_spec.1 "Sentence A. [C1:abcdef0123:loc1]. Sentence B. [C2:abcdef0123:loc2]."
    [⟨"C1", "abcdef0123", "loc1", "Sentence A."⟩,
     ⟨"C2", "abcdef0123", "loc2", ". Sentence B."⟩] [] none none
    claim_context_spec.2).2 1 (by decide)

/-! ## C9: failure modes of the producer entry point -/

/-- C9 (amended): `generate_grounded_text` fails with the `MissingField`
`ValueError`, returning no annotated text, in each of these cases: a
present-but-empty `shi` (with `loc_selector` present); a present-but-empty
`loc_selector`; supplied relationship metadata with an absent or empty
`TYPE` (source fields present and non-empty); and supplied relationship
metadata with a non-empty `TYPE`, defaulted `RELATION_ID` and `DEP_CLAIMS`,
and an absent or empty `LOGIC_MODEL`.  By contrast, an absent `shi`,
`loc_selector` or `source_uri` key raises `KeyError` from the dict
subscript, not `MissingField`, and a present-but-empty `source_uri` does
not fail at all. -/
theorem generate_missing_field_behavior :
    (∀ claim l u rmeta, generate_grounded_text claim ⟨some "", some l, u⟩ rmeta =
      .error (.valueError "Source metadata is missing shi or loc_selector."))
    ∧ (∀ claim s u rmeta, generate_grounded_text claim ⟨some s, some "", u⟩ rmeta =
      .error (.valueError "Source metadata is missing shi or loc_selector."))
    ∧ (∀ claim l u rmeta, generate_grounded_text claim ⟨none, l, u⟩ rmeta =
      .error (.keyError "shi"))
    ∧ (∀ claim s u rmeta, generate_grounded_text claim ⟨some s, none, u⟩ rmeta =
      .error (.keyError "loc_selector"))
    ∧ (∀ claim s l rmeta, s ≠ "" → l ≠ "" →
      generate_grounded_text claim ⟨some s, some l, none⟩ rmeta =
        .error (.keyError "source_uri"))
    ∧ (∀ claim s l u rmeta, s ≠ "" → l ≠ "" →
      (rmeta.TYPE = none ∨ rmeta.TYPE = some "") →
      generate_grounded_text claim ⟨some s, some l, some u⟩ (some rmeta) =
        .error (.valueError "Relationship TYPE must be provided in relationship_metadata."))
    ∧ (∀ claim s l u ty sp ts, s ≠ "" → l ≠ "" → ty ≠ "" →
      generate_grounded_text claim ⟨some s, some l, some u⟩
        (some ⟨none, some ty, none, sp, none, ts⟩) =
        .error (.valueError "LOGIC_MODEL must be provided in relationship_metadata for VAR entry."))
    ∧ (∀ claim s l u ty sp ts, s ≠ "" → l ≠ "" → ty ≠ "" →
      generate_grounded_text claim ⟨some s, some l, some u⟩
        (some ⟨none, some ty, none, sp, some "", ts⟩) =
        .error (.valueError "LOGIC_MODEL must be provided in relationship_metadata for VAR entry."))
    ∧ (∀ claim s l, s ≠ "" → l ≠ "" →
      (generate_grounded_text claim ⟨some s, some l, some ""⟩ none).isOk = true) := by
  refine ⟨?_, ?_, ?_, ?_, ?_, ?_, ?_, ?_, ?_⟩
  · intro claim l u rmeta
    simp [generate_grounded_text, construct_igm]
  · intro claim s u rmeta
    simp [generate_grounded_text, construct_igm]
  · intro claim l u rmeta
    rfl
  · intro claim s u rmeta
    rfl
  · intro claim s l rmeta hs hl
    simp [generate_grounded_text, construct_igm, hs, hl]
  · intro claim s l u rmeta hs hl hty
    simp only [generate_grounded_text, construct_igm, hs, hl, decide_eq_true_eq,
      Bool.or_eq_true, or_self, or_false, false_or, if_false]
    rcases hty with hty | hty <;> rw [hty] <;> simp
  · intro claim s l u ty sp ts hs hl hty
    simp only [generate_grounded_text, construct_igm, hs, hl, decide_eq_true_eq,
      Bool.or_eq_true, or_self, or_false, false_or, if_false]
    simp [hty, construct_relationship_marker]
  · intro claim s l u ty sp ts hs hl hty
    simp only [generate_grounded_text, construct_igm, hs, hl, decide_eq_true_eq,
      Bool.or_eq_true, or_self, or_false, false_or, if_false]
    simp [hty, construct_relationship_marker]
  · intro claim s l hs hl
    simp only [generate_grounded_text, construct_igm, hs, hl, decide_eq_true_eq,
      Bool.or_eq_true, or_self, or_false, false_or, if_false]
    rfl

/-- C9 witness: concrete instantiations of the failure and success cases. -/
theorem generate_missing_field_behavior_witness :
    generate_grounded_text "c" ⟨some "abcdef0123", some "sel", none⟩ none =
      .error (.keyError "source_uri")
    ∧ generate_grounded_text "c" ⟨some "abcdef0123", some "sel", some "u"⟩
        (some ⟨none, some "SUPPORTS", none, none, none, none⟩) =
      .error (.valueError "LOGIC_MODEL must be provided in relationship_metadata for VAR entry.")
    ∧ (generate_grounded_text "c" ⟨some "abcdef0123", some "sel", some ""⟩ none).isOk = true :=
  ⟨generate_missing_field_behavior.2.2.2.2.1 "c" "abcdef0123" "sel" none
      (by decide) (by decide),
   generate_missing_field_behavior.2.2.2.2.2.2.1 "c" "abcdef0123" "sel" "u" "SUPPORTS"
      none none (by decide) (by decide) (by decide),
   generate_missing_field_behavior.2.2.2.2.2.2.2.2 "c" "abcdef0123" "sel"
      (by decide) (by decide)⟩

/-- C9 counterexample: with `shi` absent the call raises `KeyError`, not the
`MissingField` `ValueError`; and with a present-but-empty `source_uri` the
call succeeds instead of failing. -/
theorem generate_missing_field_cex :
    generate_grounded_text "c" ⟨none, some "sel", some "u"⟩ none =
      .error (.keyError "shi")
    ∧ (generate_grounded_text "c" ⟨some "abcdef0123", some "sel", some ""⟩ none).isOk = true :=
  ⟨rfl, rfl⟩

/-! ## C10: `css=` is stripped for the registry draft but not for the
inline marker -/

theorem replaceDropAux_length_le (pat : List Char) :
    ∀ (fuel : Nat) (s : List Char), (replaceDropAux pat fuel s).length ≤ s.length := by
  intro fuel
  induction fuel with
  | zero => intro s; simp [replaceDropAux]
  | succ f ih =>
    intro s
    cases s with
    | nil => simp [replaceDropAux]
    | cons c t =>
      rw [replaceDropAux]
      split
      · exact le_trans (ih _) (by simpa using List.length_drop_le pat.length (c :: t))
      · simpa using ih t

theorem replaceDrop_length_lt (pat s : List Char) (hp : pat ≠ [])
    (h : isPrefB pat s = true) : (replaceDrop pat s).length < s.length := by
  obtain ⟨r, rfl⟩ := eq_append_of_isPrefB pat s h
  cases pat with
  | nil => exact absurd rfl hp
  | cons pc pr =>
    have hs : (pc :: pr) ++ r = pc :: (pr ++ r) := rfl
    rw [replaceDrop, hs, List.length_cons, replaceDropAux, if_pos (hs ▸ h)]
    have hd : (pc :: (pr ++ r)).drop (pc :: pr).length = r := by
      show ((pc :: pr) ++ r).drop (pc :: pr).length = r
      exact List.drop_left _ _
    rw [hd]
    have hle := replaceDropAux_length_le (pc :: pr) ((pr ++ r).length + 1) r
    simp only [List.length_cons, List.length_append] at hle ⊢
    omega

/-- C10: whenever `generate_grounded_text` succeeds on a `loc_selector`
beginning with `css=`, the returned SSR draft's `Loc_Selector` is the
selector with every `css=` occurrence removed, while the text embeds the
claim marker carrying the original selector; consequently the two selectors
differ. -/
theorem css_strip_divergence (claim : String) (sm : SourceMetadata)
    (rmeta : Option RelationshipMetadata) (txt : String) (ssr : SsrEntry)
    (var : Option VarEntry) (l : String)
    (hloc : sm.loc_selector = some l)
    (hpre : isPrefB ("css=").data l.data = true)
    (hok : generate_grounded_text claim sm rmeta = .ok (txt, ssr, var)) :
    ssr.Loc_Selector = String.mk (replaceDrop ("css=").data l.data)
    ∧ (∃ shiv rest, sm.shi = some shiv ∧
        txt = claim ++ " " ++ ("[" ++ "C1" ++ ":" ++ String.mk (shiv.data.take 10)
          ++ ":" ++ l ++ "]") ++ rest)
    ∧ ssr.Loc_Selector ≠ l := by
  obtain ⟨mshi, mloc, muri⟩ := sm
  simp only at hloc
  subst hloc
  have hlt : (replaceDrop ("css=").data l.data).length < l.data.length :=
    replaceDrop_length_lt _ _ (by decide) hpre
  have hne : String.mk (replaceDrop ("css=").data l.data) ≠ l := by
    intro he
    have h2 : replaceDrop ("css=").data l.data = l.data := congrArg String.data he
    rw [h2] at hlt
    exact lt_irrefl _ hlt
  cases mshi with
  | none => cases hok
  | some shiv =>
    rw [generate_grounded_text] at hok
    simp only at hok
    cases hC : construct_igm ⟨some shiv, some l, muri⟩ "C1" with
    | error e => rw [hC] at hok; cases hok
    | ok igm =>
      rw [hC] at hok
      have higm : igm = "[" ++ "C1" ++ ":" ++ String.mk (shiv.data.take 10) ++ ":" ++ l ++ "]" := by
        have hlne : l ≠ "" := by
          intro he
          rw [he] at hpre
          cases hpre
        have hsne : shiv ≠ "" := by
          intro he
          rw [he] at hC
          simp [construct_igm] at hC
        simp only [construct_igm, hsne, hlne, decide_eq_true_eq, Bool.or_eq_true, or_self,
          if_false, Except.ok.injEq] at hC
        exact hC.symm
      cases muri with
      | none => cases hok
      | some uri =>
        simp only at hok
        cases rmeta with
        | none =>
          simp only [Except.ok.injEq, Prod.mk.injEq] at hok
          obtain ⟨htxt, hssr, hvar⟩ := hok
          refine ⟨?_, ⟨shiv, "." ++ acgBlockGen (.jobj (.ocons "SSR"
            (.jarr (.acons (SsrEntry.toJ ⟨shiv, "Web Article", uri, "CSS_Selector",
              String.mk (replaceDrop ("css=").data l.data)⟩) .anil))
            (.ocons "VAR" (.jarr .anil) .onil))), rfl, ?_⟩, ?_⟩
          · rw [← hssr]
          · rw [← htxt, higm]
            simp only [String.append_assoc]
          · rw [← hssr]
            exact hne
        | some rmv =>
          simp only at hok
          cases hT : rmv.TYPE with
          | none => rw [hT] at hok; cases hok
          | some ty =>
            rw [hT] at hok
            simp only at hok
            by_cases hty : ty = ""
            · rw [if_pos hty] at hok; cases hok
            · rw [if_neg hty] at hok
              cases hR : construct_relationship_marker (rmv.RELATION_ID.getD "R1") ty
                  (rmv.DEP_CLAIMS.getD ["C1"]) with
              | error e => rw [hR] at hok; cases hok
              | ok rmStr =>
                rw [hR] at hok
                simp only at hok
                cases hL : rmv.LOGIC_MODEL with
                | none => rw [hL] at hok; cases hok
                | some lm =>
                  rw [hL] at hok
                  simp only at hok
                  by_cases hlm : lm = ""
                  · rw [if_pos hlm] at hok; cases hok
                  · rw [if_neg hlm] at hok
                    simp only [Except.ok.injEq, Prod.mk.injEq] at hok
                    obtain ⟨htxt, hssr, hvar⟩ := hok
                    refine ⟨?_, ⟨shiv, rmStr ++ "." ++ acgBlockGen (.jobj (.ocons "SSR"
                      (.jarr (.acons (SsrEntry.toJ ⟨shiv, "Web Article", uri, "CSS_Selector",
                        String.mk (replaceDrop ("css=").data l.data)⟩) .anil))
                      (.ocons "VAR" (.jarr (.acons (VarEntry.toJ ⟨rmv.RELATION_ID.getD "R1", ty,
                        rmv.DEP_CLAIMS.getD ["C1"], rmv.SYNTHESIS_PROSE.getD claim,
                        some lm, "PENDING", rmv.TIMESTAMP.getD ""⟩) .anil)) .onil))),
                      rfl, ?_⟩, ?_⟩
                    · rw [← hssr]
                    · rw [← htxt, higm]
                      simp only [String.append_assoc]
                    · rw [← hssr]
                      exact hne

/-- C10 witness: a concrete call with a `css=` selector. -/
theorem css_strip_divergence_witness :
    ∃ txt ssr var,
      generate_grounded_text "c" ⟨some "abcdef0123xyz", some "css=p.x", some "u"⟩ none =
        .ok (txt, ssr, var)
      ∧ ssr.Loc_Selector = String.mk (replaceDrop ("css=").data ("css=p.x" : String).data)
      ∧ ssr.Loc_Selector ≠ "css=p.x"
      ∧ ssr.Loc_Selector = "p.x" := by
  have hisOk : (generate_grounded_text "c"
      ⟨some "abcdef0123xyz", some "css=p.x", some "u"⟩ none).isOk = true := rfl
  cases hg : generate_grounded_text "c" ⟨some "abcdef0123xyz", some "css=p.x", some "u"⟩ none with
  | error e => rw [hg] at hisOk; cases hisOk
  | ok r =>
    obtain ⟨txt, ssr, var⟩ := r
    have h := css_strip_divergence "c" ⟨some "abcdef0123xyz", some "css=p.x", some "u"⟩
      none txt ssr var "css=p.x" rfl (by decide) hg
    refine ⟨txt, ssr, var, rfl, h.1, h.2.2, ?_⟩
    rw [h.1]
    rfl

/-! ## C8: missing-field rejection in the construction functions -/

/-- C8: `construct_igm` with an absent or empty `location_selector` fails
with the `MissingField` `ValueError` (whatever the other fields), and
`construct_relationship_marker` fails likewise when the dependency list is
empty, or the relationship id or relation type is empty; no marker string is
produced. -/
theorem missing_field_rejection :
    (∀ shi uri cid, construct_igm ⟨shi, none, uri⟩ cid =
      .error (.valueError "Source metadata is missing shi or loc_selector."))
    ∧ (∀ shi uri cid, construct_igm ⟨shi, some "", uri⟩ cid =
      .error (.valueError "Source metadata is missing shi or loc_selector."))
    ∧ (∀ rid ty, construct_relationship_marker rid ty [] =
      .error (.valueError "Relationship ID, type, and dependency claims are required."))
    ∧ (∀ ty deps, construct_relationship_marker "" ty deps =
      .error (.valueError "Relationship ID, type, and dependency claims are required."))
    ∧ (∀ rid deps, construct_relationship_marker rid "" deps =
      .error (.valueError "Relationship ID, type, and dependency claims are required.")) := by
  refine ⟨?_, ?_, ?_, ?_, ?_⟩
  · intro shi uri cid
    cases shi <;> rfl
  · intro shi uri cid
    cases shi with
    | none => rfl
    | some s => simp [construct_igm]
  · intro rid ty
    simp [construct_relationship_marker]
  · intro ty deps
    simp [construct_relationship_marker]
  · intro rid deps
    simp [construct_relationship_marker]

/-! ## C7: the source hash identity -/

theorem isSpacePy_toLower (c : Char) : isSpacePy (Char.toLower c) = isSpacePy c := by
  simp only [Char.toLower]
  by_cases h : c.toNat ≥ 65 ∧ c.toNat ≤ 90
  · rw [if_pos h]
    obtain ⟨h1, h2⟩ := h
    have e1 : c ≠ ' ' := by intro he; rw [he] at h1; exact absurd h1 (by decide)
    have e2 : c ≠ '\t' := by intro he; rw [he] at h1; exact absurd h1 (by decide)
    have e3 : c ≠ '\n' := by intro he; rw [he] at h1; exact absurd h1 (by decide)
    have e4 : c ≠ '\r' := by intro he; rw [he] at h1; exact absurd h1 (by decide)
    have e5 : c ≠ '\x0b' := by intro he; rw [he] at h1; exact absurd h1 (by decide)
    have e6 : c ≠ '\x0c' := by intro he; rw [he] at h1; exact absurd h1 (by decide)
    have hcsp : isSpacePy c = false := by
      simp [isSpacePy, e1, e2, e3, e4, e5, e6]
    rw [hcsp]
    obtain ⟨n, hn, hg1, hg2⟩ : ∃ n, c.toNat = n ∧ 65 ≤ n ∧ n ≤ 90 :=
      ⟨c.toNat, rfl, h1, h2⟩
    rw [hn]
    interval_cases n <;> decide
  · rw [if_neg h]

theorem pyStrip_pyLower (s : List Char) : pyStrip (pyLower s) = pyLower (pyStrip s) := by
  have hps : isSpacePy ∘ Char.toLower = isSpacePy := funext isSpacePy_toLower
  simp only [pyStrip, pyLower, List.dropWhile_map, hps, ← List.map_reverse]

theorem isLowerHexChar_hexDigitChar (n : Nat) : isLowerHexChar (hexDigitChar n) = true := by
  unfold hexDigitChar
  by_cases h : n < 16
  · interval_cases n <;> decide
  · rw [List.getD_eq_default _ _ (by simp; omega)]
    decide

theorem sha256Hex_length (msg : List Nat) : (sha256Hex msg).length = 64 := by
  simp [sha256Hex, word8Hex, String.length]

theorem sha256Hex_all_hex (msg : List Nat) :
    (sha256Hex msg).data.all isLowerHexChar = true := by
  simp [sha256Hex, word8Hex, List.all_append, isLowerHexChar_hexDigitChar]

/-- C7: `generate_shi` is deterministic; it equals the lowercase SHA-256 hex
digest of the UTF-8 bytes of `trim(lower(uri)) + "|" + trim(lower(tag))`
(the spec's formula — strip and lowercase commute); and its output is always
a 64-character string of lowercase hexadecimal digits. -/
theorem generate_shi_spec (uri tag : String) :
    generate_shi uri tag = generate_shi uri tag
    ∧ generate_shi uri tag = compute_source_identity_spec uri tag
    ∧ (generate_shi uri tag).length = 64
    ∧ (generate_shi uri tag).data.all isLowerHexChar = true := by
  refine ⟨rfl, ?_, sha256Hex_length _, sha256Hex_all_hex _⟩
  unfold generate_shi compute_source_identity_spec
  rw [pyStrip_pyLower, pyStrip_pyLower]

/-! ## C3: assemble / parse round trip.

First the block-location lemmas: the registry-block regex finds exactly the
serialized JSON (plus the trailing newline) in the assembler's output. -/

theorem isPrefB_of_append_left (p q s : List Char) (h : isPrefB (p ++ q) s = true) :
    isPrefB p s = true := by
  induction p generalizing s with
  | nil => rfl
  | cons a t ih =>
    cases s with
    | nil => simp [isPrefB] at h
    | cons b u =>
      simp only [List.cons_append, isPrefB, Bool.and_eq_true, decide_eq_true_eq] at h ⊢
      exact ⟨h.1, ih u h.2⟩

theorem isPrefB_self (p : List Char) : isPrefB p p = true := by
  have := isPrefB_append_self p []
  simpa using this

theorem isPrefB_second (a b : Char) (p : List Char) (x y : Char) (s : List Char)
    (h : isPrefB (a :: b :: p) (x :: y :: s) = true) : a = x ∧ b = y := by
  simp only [isPrefB, Bool.and_eq_true, decide_eq_true_eq] at h
  exact ⟨h.1, h.2.1⟩

/-- Scanning past a prefix free of the bare start marker, `findAcgBlock`
lands exactly on the assembler's start literal. -/
theorem findAcgBlock_skip (T R : List Char)
    (hT : containsSub acgStartBare T = false) :
    findAcgBlock (T ++ '\n' :: '\n' :: (acgStartLit ++ R)) = takeUntilEnd R := by
  induction T with
  | nil =>
    show findAcgBlock ('\n' :: '\n' :: (acgStartLit ++ R)) = takeUntilEnd R
    have hhead : ∀ t : List Char, isPrefB acgStartLit ('\n' :: t) = false := by
      intro t
      cases hx : isPrefB acgStartLit ('\n' :: t) with
      | false => rfl
      | true =>
        have hx2 : isPrefB ('-' :: ("-- ACG_START ---\n").data) ('\n' :: t) = true := hx
        exact absurd (isPrefB_head _ _ _ _ hx2) (by decide)
    rw [findAcgBlock, if_neg (by simp [hhead])]
    rw [findAcgBlock, if_neg (by simp [hhead])]
    have hsh : acgStartLit ++ R = '-' :: (("-- ACG_START ---\n").data ++ R) := rfl
    rw [hsh, findAcgBlock, if_pos (by rw [← hsh]; exact isPrefB_append_self _ _), ← hsh]
    have hdrop : (acgStartLit ++ R).drop acgStartLit.length = R := List.drop_left _ _
    rw [hdrop]
  | cons c T' ih =>
    rw [containsSub_cons_eq, Bool.or_eq_false_iff] at hT
    have hnp : isPrefB acgStartLit (c :: (T' ++ '\n' :: '\n' :: (acgStartLit ++ R))) = false := by
      cases hp : isPrefB acgStartLit (c :: (T' ++ '\n' :: '\n' :: (acgStartLit ++ R))) with
      | false => rfl
      | true =>
        exfalso
        have hp2 : isPrefB acgStartLit ((c :: T') ++ ('\n' :: '\n' :: (acgStartLit ++ R))) = true := hp
        rcases isPrefB_split acgStartLit (c :: T') ('\n' :: '\n' :: (acgStartLit ++ R)) hp2 with
          h1 | ⟨q, hqne, hsp, hq⟩
        · have hb : isPrefB acgStartBare (c :: T') = true := by
            have hlit : acgStartLit = acgStartBare ++ ['\n'] := by decide
            exact isPrefB_of_append_left _ _ _ (hlit ▸ h1)
          rw [hT.1] at hb
          exact absurd hb (by decide)
        · cases q with
          | nil => exact hqne rfl
          | cons e q' =>
            have he : e = '\n' := isPrefB_head _ _ _ _ hq
            subst he
            cases q' with
            | nil =>
              have hlit : acgStartBare ++ ['\n'] = acgStartLit := by decide
              rw [← hlit] at hsp
              have hT' : c :: T' = acgStartBare := List.append_cancel_right hsp.symm
              have hb : isPrefB acgStartBare (c :: T') = true := by
                rw [hT']
                exact isPrefB_self _
              rw [hT.1] at hb
              exact absurd hb (by decide)
            | cons f q'' =>
              have hf : ('\n' : Char) = '\n' ∧ f = '\n' := isPrefB_second _ _ _ _ _ _ hq
              have hcon : containsSub ['\n', '\n'] acgStartLit = true := by
                rw [hsp, hf.2]
                have hsh : (c :: T') ++ '\n' :: '\n' :: q''
                    = (c :: T') ++ ['\n', '\n'] ++ q'' := by simp
                rw [hsh]
                exact containsSub_of_exists _ _ _
              exact absurd hcon (by decide)
    rw [List.cons_append, findAcgBlock, if_neg (by simp [hnp]), ih hT.2]

theorem nlOk_single (c : Char) : nlOk [c] = if c = '\n' then false else true := by
  rw [nlOk.eq_def]
  rfl

theorem nlOk_cons_cons (c d : Char) (t : List Char) :
    nlOk (c :: d :: t) = if c = '\n' then
      (d = ' ' || d = ']' || d = rbrace) && nlOk (d :: t)
    else nlOk (d :: t) := by
  rw [nlOk.eq_def]

theorem nlOk_tail (c : Char) (t : List Char) (h : nlOk (c :: t) = true) :
    nlOk t = true := by
  cases t with
  | nil => rfl
  | cons d t' =>
    rw [nlOk_cons_cons] at h
    by_cases hc : c = '\n'
    · rw [if_pos hc, Bool.and_eq_true] at h
      exact h.2
    · rw [if_neg hc] at h
      exact h

theorem nlOk_nl_head (t : List Char) (h : nlOk ('\n' :: t) = true) :
    ∃ d t', t = d :: t' ∧ (d = ' ' ∨ d = ']' ∨ d = rbrace) := by
  cases t with
  | nil =>
    rw [nlOk_single, if_pos rfl] at h
    cases h
  | cons d t' =>
    rw [nlOk_cons_cons, if_pos rfl] at h
    simp only [Bool.and_eq_true, Bool.or_eq_true, decide_eq_true_eq] at h
    refine ⟨d, t', rfl, ?_⟩
    rcases h.1 with (h1 | h1) | h1 <;> simp [h1]

/-- On a body whose newlines are all followed by a space or a closing
bracket, the first occurrence of the end literal is the appended one. -/
theorem takeUntilEnd_block (J : List Char) (hJ : nlOk J = true) :
    takeUntilEnd (J ++ '\n' :: (acgEndLit ++ ['\n'])) = some (J ++ ['\n']) := by
  induction J with
  | nil =>
    show takeUntilEnd ('\n' :: (acgEndLit ++ ['\n'])) = some ['\n']
    rw [takeUntilEnd, if_neg (by decide)]
    have hsh : acgEndLit ++ ['\n'] = '\n' :: (("--- ACG_END ---").data ++ ['\n']) := rfl
    rw [hsh, takeUntilEnd, if_pos (by rw [← hsh]; exact isPrefB_append_self _ _)]
    rfl
  | cons c J' ih =>
    have hnp : isPrefB acgEndLit (c :: (J' ++ '\n' :: (acgEndLit ++ ['\n']))) = false := by
      by_cases hc : c = '\n'
      · subst hc
        obtain ⟨d, J'', rfl, hd⟩ := nlOk_nl_head J' hJ
        cases hp : isPrefB acgEndLit ('\n' :: (d :: J'' ++ '\n' :: (acgEndLit ++ ['\n']))) with
        | false => rfl
        | true =>
          exfalso
          have hp2 : isPrefB ('\n' :: '-' :: ("-- ACG_END ---").data)
              ('\n' :: d :: (J'' ++ '\n' :: (acgEndLit ++ ['\n']))) = true := hp
          have hdd := (isPrefB_second _ _ _ _ _ _ hp2).2
          rcases hd with hd | hd | hd <;> rw [hd] at hdd <;> revert hdd <;> decide
      · cases hp : isPrefB acgEndLit (c :: (J' ++ '\n' :: (acgEndLit ++ ['\n']))) with
        | false => rfl
        | true =>
          exfalso
          have hp2 : isPrefB ('\n' :: ("--- ACG_END ---").data)
              (c :: (J' ++ '\n' :: (acgEndLit ++ ['\n']))) = true := hp
          exact hc (isPrefB_head _ _ _ _ hp2).symm
    rw [List.cons_append, takeUntilEnd, if_neg (by simp [hnp]), ih (nlOk_tail _ _ hJ)]
    rfl

/-! Newline discipline of the serializer: every newline `json.dumps`
emits is followed by a space or a closing bracket, and the output never
ends in a newline — so the end literal cannot occur inside it. -/

theorem nlOk_cons_of_ne (c : Char) (t : List Char) (hc : c ≠ '\n') :
    nlOk (c :: t) = nlOk t := by
  cases t with
  | nil => rw [nlOk_single, if_neg hc]; rfl
  | cons d t' => rw [nlOk_cons_cons, if_neg hc]

theorem nlOk_append (a b : List Char) (ha : nlOk a = true) (hb : nlOk b = true) :
    nlOk (a ++ b) = true := by
  induction a with
  | nil => exact hb
  | cons c t ih =>
    by_cases hc : c = '\n'
    · subst hc
      obtain ⟨d, t', rfl, hd⟩ := nlOk_nl_head t ha
      have ha2 : ((d = ' ' || d = ']' || d = rbrace) && nlOk (d :: t')) = true := by
        rw [nlOk_cons_cons, if_pos rfl] at ha
        exact ha
      rw [Bool.and_eq_true] at ha2
      show nlOk ('\n' :: ((d :: t') ++ b)) = true
      rw [List.cons_append, nlOk_cons_cons, if_pos rfl, ha2.1, Bool.true_and]
      exact ih ha2.2
    · rw [List.cons_append, nlOk_cons_of_ne _ _ hc]
      exact ih (by rw [nlOk_cons_of_ne _ _ hc] at ha; exact ha)

theorem all_mono (p q : Char → Bool) (l : List Char)
    (hpq : ∀ c, p c = true → q c = true) (h : l.all p = true) : l.all q = true := by
  induction l with
  | nil => rfl
  | cons c t ih =>
    simp only [List.all_cons, Bool.and_eq_true] at h ⊢
    exact ⟨hpq c h.1, ih h.2⟩

theorem noNl_nlOk (l : List Char) (h : noNl l = true) : nlOk l = true := by
  induction l with
  | nil => rfl
  | cons c t ih =>
    simp only [noNl, List.all_cons, Bool.and_eq_true, decide_eq_true_eq] at h
    rw [nlOk_cons_of_ne _ _ h.1]
    exact ih h.2

theorem noNl_append (a b : List Char) (ha : noNl a = true) (hb : noNl b = true) :
    noNl (a ++ b) = true := by
  simp only [noNl, List.all_append, Bool.and_eq_true]
  exact ⟨ha, hb⟩

theorem hexDigitChar_not_nl (n : Nat) : (hexDigitChar n ≠ '\n') := by
  have h := isLowerHexChar_hexDigitChar n
  intro he
  rw [he] at h
  exact absurd h (by decide)

theorem noNl_hex4 (n : Nat) : noNl (hex4 n) = true := by
  simp [noNl, hex4, hexDigitChar_not_nl]

theorem noNl_uEsc (n : Nat) : noNl (uEsc n) = true := by
  simp [noNl, uEsc, List.all_cons]
  exact (by simpa [noNl] using noNl_hex4 n)

set_option maxHeartbeats 1000000 in
theorem noNl_escChar (c : Char) : noNl (escChar c) = true := by
  unfold escChar
  split_ifs with h1 h2 h3 h4 h5 h6 h7 h8 h9 h10
  · decide
  · decide
  · decide
  · decide
  · decide
  · decide
  · decide
  · exact noNl_uEsc _
  · simp [noNl, h5]
  · exact noNl_uEsc _
  · exact noNl_append _ _ (noNl_uEsc _) (noNl_uEsc _)

theorem noNl_escapeStr (s : List Char) : noNl (escapeStr s) = true := by
  induction s with
  | nil => rfl
  | cons c t ih => exact noNl_append _ _ (noNl_escChar c) ih

theorem noNl_dumpStr (s : String) : noNl (dumpStr s) = true := by
  unfold dumpStr
  have h2 : noNl (escapeStr s.data ++ ['"']) = true :=
    noNl_append _ _ (noNl_escapeStr _) (by decide)
  simpa [noNl] using h2

theorem hexDigit_isDigit (n : Nat) (h : n < 10) : (hexDigitChar n).isDigit = true := by
  interval_cases n <;> decide

theorem natDigitsAux_all_digit (fuel : Nat) : ∀ n, (natDigitsAux fuel n).all Char.isDigit = true := by
  induction fuel with
  | zero => intro n; rfl
  | succ f ih =>
    intro n
    rw [natDigitsAux]
    by_cases h : n < 10
    · rw [if_pos h]
      simp [hexDigit_isDigit n h]
    · rw [if_neg h]
      rw [List.all_append, ih (n / 10)]
      simp [hexDigit_isDigit (n % 10) (Nat.mod_lt _ (by omega))]

theorem noNl_natDigits (n : Nat) : noNl (natDigits n) = true :=
  all_mono _ _ _ (fun c hc => by
    simp only [decide_eq_true_eq]
    exact fun he => by rw [he] at hc; exact absurd hc (by decide))
    (natDigitsAux_all_digit (n + 1) n)

theorem noNl_intDigits (i : Int) : noNl (intDigits i) = true := by
  unfold intDigits
  split_ifs with h
  · have h2 := noNl_natDigits i.natAbs
    simpa [noNl] using h2
  · exact noNl_natDigits _

theorem nlOk_spaces_append (m : Nat) (X : List Char) (hX : nlOk X = true) :
    nlOk (List.replicate m ' ' ++ X) = true := by
  induction m with
  | zero => exact hX
  | succ k ih =>
    rw [List.replicate_succ, List.cons_append, nlOk_cons_of_ne _ _ (by decide)]
    exact ih

theorem nlOk_nl_indent (lvl : Nat) (X : List Char) (hl : 1 ≤ lvl)
    (hX : nlOk X = true) : nlOk ('\n' :: (indentSp lvl ++ X)) = true := by
  have hsp : indentSp lvl = ' ' :: (List.replicate (2 * lvl - 1) ' ' ++ []) := by
    simp only [indentSp, List.append_nil]
    rw [show 2 * lvl = (2 * lvl - 1) + 1 by omega]
    rfl
  rw [hsp]
  simp only [List.append_nil, List.cons_append]
  rw [nlOk_cons_cons, if_pos rfl]
  simp only [decide_eq_true_eq, Bool.or_eq_true, Bool.and_eq_true]
  refine ⟨by simp, ?_⟩
  rw [show (' ' :: (List.replicate (2 * lvl - 1) ' ' ++ X))
      = List.replicate (2 * lvl - 1 + 1) ' ' ++ X by rw [List.replicate_succ]; rfl]
  exact nlOk_spaces_append _ _ hX

theorem nlOk_close (lvl : Nat) (b : Char) (hb : b = ']' ∨ b = rbrace) :
    nlOk ('\n' :: (indentSp lvl ++ [b])) = true := by
  have hbne : b ≠ '\n' := by rcases hb with hb | hb <;> subst hb <;> decide
  have hsingle : nlOk [b] = true := by rw [nlOk_single, if_neg hbne]
  cases lvl with
  | zero =>
    show nlOk ('\n' :: ([] ++ [b])) = true
    rw [List.nil_append, nlOk_cons_cons, if_pos rfl]
    rcases hb with hb | hb <;> subst hb <;> simp [hsingle]
  | succ k => exact nlOk_nl_indent _ _ (by omega) hsingle

theorem sizeV_pos (v : JVal) : 1 ≤ sizeV v := by
  cases v <;> simp [sizeV] <;> omega

theorem sizeA_pos (a : JArr) : 1 ≤ sizeA a := by
  cases a <;> simp [sizeA] <;> omega

theorem sizeO_pos (o : JObj) : 1 ≤ sizeO o := by
  cases o <;> simp [sizeO] <;> omega

theorem dumpV_arr_eq (lvl : Nat) (v : JVal) (t : JArr) :
    dumpV lvl (.jarr (.acons v t)) =
      '[' :: (dumpA (lvl + 1) (.acons v t) ++ '\n' :: (indentSp lvl ++ [']'])) := by
  simp [dumpV, List.append_assoc]

theorem dumpV_obj_eq (lvl : Nat) (k : String) (v : JVal) (t : JObj) :
    dumpV lvl (.jobj (.ocons k v t)) =
      lbrace :: (dumpO (lvl + 1) (.ocons k v t) ++ '\n' :: (indentSp lvl ++ [rbrace])) := by
  simp [dumpV, List.append_assoc]

theorem dumpA_one_eq (lvl : Nat) (v : JVal) :
    dumpA lvl (.acons v .anil) = '\n' :: (indentSp lvl ++ dumpV lvl v) := by
  simp [dumpA]

theorem dumpA_cons_eq (lvl : Nat) (v w : JVal) (t : JArr) :
    dumpA lvl (.acons v (.acons w t)) =
      ('\n' :: (indentSp lvl ++ dumpV lvl v)) ++ ',' :: dumpA lvl (.acons w t) := by
  simp [dumpA, List.append_assoc]

theorem dumpO_one_eq (lvl : Nat) (k : String) (v : JVal) :
    dumpO lvl (.ocons k v .onil) =
      '\n' :: (indentSp lvl ++ (dumpStr k ++ ':' :: ' ' :: dumpV lvl v)) := by
  simp [dumpO, List.append_assoc]

theorem dumpO_cons_eq (lvl : Nat) (k : String) (v : JVal) (k2 : String) (v2 : JVal) (t : JObj) :
    dumpO lvl (.ocons k v (.ocons k2 v2 t)) =
      ('\n' :: (indentSp lvl ++ (dumpStr k ++ ':' :: ' ' :: dumpV lvl v)))
        ++ ',' :: dumpO lvl (.ocons k2 v2 t) := by
  simp [dumpO, List.append_assoc]

/-- The serializer's newline discipline, by joint induction on a size
bound. -/
theorem dump_nlOk_all : ∀ n : Nat,
    (∀ v lvl, sizeV v ≤ n → nlOk (dumpV lvl v) = true)
    ∧ (∀ a lvl, 1 ≤ lvl → sizeA a ≤ n → nlOk (dumpA lvl a) = true)
    ∧ (∀ o lvl, 1 ≤ lvl → sizeO o ≤ n → nlOk (dumpO lvl o) = true) := by
  intro n
  induction n with
  | zero =>
    refine ⟨fun v lvl hv => absurd hv (by have := sizeV_pos v; omega),
      fun a lvl _ ha => absurd ha (by have := sizeA_pos a; omega),
      fun o lvl _ ho => absurd ho (by have := sizeO_pos o; omega)⟩
  | succ m ih =>
    obtain ⟨ihV, ihA, ihO⟩ := ih
    refine ⟨?_, ?_, ?_⟩
    · intro v lvl hv
      cases v with
      | jstr s => exact noNl_nlOk _ (noNl_dumpStr s)
      | joid s => exact noNl_nlOk _ (noNl_dumpStr s)
      | jint i => exact noNl_nlOk _ (noNl_intDigits i)
      | jbool b => cases b <;> simp only [dumpV] <;> decide
      | jnull => simp only [dumpV]; decide
      | jarr a =>
        cases a with
        | anil => simp only [dumpV]; decide
        | acons v t =>
          rw [dumpV_arr_eq, nlOk_cons_of_ne _ _ (by decide)]
          refine nlOk_append _ _ (ihA _ _ (by omega) ?_) (nlOk_close _ _ (Or.inl rfl))
          simp only [sizeV, sizeA] at hv ⊢
          omega
      | jobj o =>
        cases o with
        | onil => simp only [dumpV]; decide
        | ocons k v t =>
          rw [dumpV_obj_eq, nlOk_cons_of_ne _ _ (by decide)]
          refine nlOk_append _ _ (ihO _ _ (by omega) ?_) (nlOk_close _ _ (Or.inr rfl))
          simp only [sizeV, sizeO] at hv ⊢
          omega
    · intro a lvl hl ha
      cases a with
      | anil => rfl
      | acons v t =>
        cases t with
        | anil =>
          rw [dumpA_one_eq]
          refine nlOk_nl_indent _ _ hl (ihV _ _ ?_)
          simp only [sizeA] at ha
          have := sizeA_pos JArr.anil
          omega
        | acons w t' =>
          rw [dumpA_cons_eq]
          refine nlOk_append _ _ (nlOk_nl_indent _ _ hl (ihV _ _ ?_)) ?_
          · simp only [sizeA] at ha
            have := sizeA_pos (JArr.acons w t')
            omega
          · rw [nlOk_cons_of_ne _ _ (by decide)]
            refine ihA _ _ hl ?_
            simp only [sizeA] at ha ⊢
            have := sizeV_pos v
            omega
    · intro o lvl hl ho
      cases o with
      | onil => rfl
      | ocons k v t =>
        have hmem : nlOk ('\n' :: (indentSp lvl ++ (dumpStr k ++ ':' :: ' ' :: dumpV lvl v))) = true := by
          refine nlOk_nl_indent _ _ hl ?_
          refine nlOk_append _ _ (noNl_nlOk _ (noNl_dumpStr k)) ?_
          rw [nlOk_cons_of_ne _ _ (by decide), nlOk_cons_of_ne _ _ (by decide)]
          refine ihV _ _ ?_
          simp only [sizeO] at ho
          have := sizeO_pos t
          omega
        cases t with
        | onil =>
          rw [dumpO_one_eq]
          exact hmem
        | ocons k2 v2 t' =>
          rw [dumpO_cons_eq]
          refine nlOk_append _ _ hmem ?_
          rw [nlOk_cons_of_ne _ _ (by decide)]
          refine ihO _ _ hl ?_
          simp only [sizeO] at ho ⊢
          have := sizeV_pos v
          omega

/-- The serializer's output obeys the newline discipline. -/
theorem dumpV_nlOk (v : JVal) (lvl : Nat) : nlOk (dumpV lvl v) = true :=
  (dump_nlOk_all (sizeV v)).1 v lvl (le_refl _)

/-! Round trips of the scalar tokens: hex escapes and decimal numbers. -/

theorem hexVal_hexDigitChar (k : Nat) (h : k < 16) : hexVal (hexDigitChar k) = k := by
  interval_cases k <;> decide

theorem isHexChar_hexDigitChar (k : Nat) (h : k < 16) : isHexChar (hexDigitChar k) = true := by
  interval_cases k <;> decide

theorem hex4Val_hex4 (n : Nat) (rest : List Char) (h : n < 65536) :
    hex4Val (hex4 n ++ rest) = some (n, rest) := by
  have e1 : n / 4096 % 16 < 16 := Nat.mod_lt _ (by omega)
  have e2 : n / 256 % 16 < 16 := Nat.mod_lt _ (by omega)
  have e3 : n / 16 % 16 < 16 := Nat.mod_lt _ (by omega)
  have e4 : n % 16 < 16 := Nat.mod_lt _ (by omega)
  show hex4Val (hexDigitChar (n / 4096 % 16) :: hexDigitChar (n / 256 % 16)
    :: hexDigitChar (n / 16 % 16) :: hexDigitChar (n % 16) :: rest) = some (n, rest)
  rw [hex4Val, if_pos (by
    rw [isHexChar_hexDigitChar _ e1, isHexChar_hexDigitChar _ e2,
      isHexChar_hexDigitChar _ e3, isHexChar_hexDigitChar _ e4]
    rfl)]
  rw [hexVal_hexDigitChar _ e1, hexVal_hexDigitChar _ e2,
    hexVal_hexDigitChar _ e3, hexVal_hexDigitChar _ e4]
  have harith : n / 4096 % 16 * 4096 + n / 256 % 16 * 256 + n / 16 % 16 * 16 + n % 16 = n := by
    omega
  rw [harith]

theorem digitVal_hexDigitChar (k : Nat) (h : k < 10) : digitVal (hexDigitChar k) = k := by
  interval_cases k <;> decide

theorem digitsVal_append_one (l : List Char) (d : Char) :
    digitsVal (l ++ [d]) = 10 * digitsVal l + digitVal d := by
  simp [digitsVal, List.foldl_append]

theorem takeWhile_append_head (p : Char → Bool) (a rest : List Char)
    (ha : ∀ x ∈ a, p x = true) (hr : ∀ c, rest.head? = some c → p c = false) :
    (a ++ rest).takeWhile p = a ∧ (a ++ rest).dropWhile p = rest := by
  induction a with
  | nil => exact ⟨takeWhile_nil_of_head p rest hr, dropWhile_id_of_head p rest hr⟩
  | cons c t ih =>
    have hc := ha c (by simp)
    obtain ⟨h1, h2⟩ := ih (fun x hx => ha x (by simp [hx]))
    exact ⟨by rw [List.cons_append, List.takeWhile_cons_of_pos hc, h1],
           by rw [List.cons_append, List.dropWhile_cons_of_pos hc, h2]⟩

theorem natDigitsAux_spec : ∀ fuel n, n < fuel →
    digitsVal (natDigitsAux fuel n) = n
    ∧ (∀ c ∈ natDigitsAux fuel n, c.isDigit = true)
    ∧ ∃ h hs, natDigitsAux fuel n = h :: hs ∧ (1 ≤ n → h ≠ '0') := by
  intro fuel
  induction fuel with
  | zero => intro n hn; omega
  | succ f ih =>
    intro n hn
    rw [natDigitsAux]
    by_cases h10 : n < 10
    · rw [if_pos h10]
      refine ⟨by simp [digitsVal, digitVal_hexDigitChar n h10],
        by simp [hexDigit_isDigit n h10], hexDigitChar n, [], rfl, ?_⟩
      intro h1
      interval_cases n <;> decide
    · rw [if_neg h10]
      have hrec := ih (n / 10) (by omega)
      obtain ⟨hv, hall, h, hs, heq, hz⟩ := hrec
      refine ⟨?_, ?_, ?_⟩
      · rw [digitsVal_append_one, hv, digitVal_hexDigitChar _ (Nat.mod_lt _ (by omega))]
        omega
      · intro c hc
        rcases List.mem_append.mp hc with hc | hc
        · exact hall c hc
        · simp only [List.mem_singleton] at hc
          rw [hc]
          exact hexDigit_isDigit _ (Nat.mod_lt _ (by omega))
      · exact ⟨h, hs ++ [hexDigitChar (n % 10)], by rw [heq]; rfl,
          fun _ => hz (by omega)⟩

theorem digit_ne_zero_char (c : Char) (h : c.isDigit = true) : c ≠ '0' ∨ c = '0' := by
  by_cases hc : c = '0'
  · exact Or.inr hc
  · exact Or.inl hc

/-- The number scanner inverts the decimal printer when no digit follows. -/
theorem parseNatTok_natDigits (n : Nat) (rest : List Char)
    (hrest : ∀ c, rest.head? = some c → c.isDigit = false) :
    parseNatTok (natDigits n ++ rest) = some (n, rest) := by
  by_cases h0 : n = 0
  · subst h0
    show parseNatTok ('0' :: rest) = some (0, rest)
    rw [parseNatTok, if_pos rfl]
  · obtain ⟨hv, hall, h, hs, heq, hz⟩ := natDigitsAux_spec (n + 1) n (by omega)
    have heq' : natDigits n = h :: hs := heq
    rw [heq']
    have hhd : h.isDigit = true := hall h (by rw [heq]; simp)
    have hh0 : h ≠ '0' := hz (by omega)
    show parseNatTok (h :: (hs ++ rest)) = some (n, rest)
    rw [parseNatTok, if_neg hh0, if_pos hhd]
    obtain ⟨ht, hd⟩ := takeWhile_append_head Char.isDigit hs rest
      (fun x hx => hall x (by rw [heq]; simp [hx])) hrest
    rw [ht, hd, ← heq, hv]

theorem char_not_surrogate (c : Char) :
    ¬(55296 ≤ c.toNat ∧ c.toNat ≤ 56319) ∧ ¬(56320 ≤ c.toNat ∧ c.toNat ≤ 57343) := by
  have hv : Nat.isValidChar c.toNat := c.valid
  rcases hv with hv | hv
  · omega
  · omega

/-! The string-body scanner inverts `json.dumps` escaping. -/

set_option maxHeartbeats 2000000 in
/-- `py_scanstring` applied to an escaped string body followed by the closing
quote returns the original characters. -/
theorem parseStrAux_escape (s : List Char) : ∀ fuel rest, s.length < fuel →
    parseStrAux fuel (escapeStr s ++ '"' :: rest) = some (s, rest) := by
  induction s with
  | nil =>
    intro fuel rest hf
    cases fuel with
    | zero => omega
    | succ f =>
      show parseStrAux (f + 1) ('"' :: rest) = some ([], rest)
      rw [parseStrAux.eq_def]
      simp
  | cons c s' ih =>
    intro fuel rest hf
    cases fuel with
    | zero => omega
    | succ f =>
      have hf' : s'.length < f := by
        simp only [List.length_cons] at hf
        omega
      have hE := ih f rest hf'
      show parseStrAux (f + 1) ((escChar c ++ escapeStr s') ++ '"' :: rest)
        = some (c :: s', rest)
      rw [List.append_assoc]
      unfold escChar
      split_ifs with h1 h2 h3 h4 h5 h6 h7 h8 h9 h10
      · subst h1
        show parseStrAux (f + 1) ('\\' :: '"' :: (escapeStr s' ++ '"' :: rest))
          = some ('"' :: s', rest)
        rw [parseStrAux]
        simp [hE]
      · subst h2
        show parseStrAux (f + 1) ('\\' :: '\\' :: (escapeStr s' ++ '"' :: rest))
          = some ('\\' :: s', rest)
        rw [parseStrAux]
        simp [hE]
      · subst h3
        show parseStrAux (f + 1) ('\\' :: 'b' :: (escapeStr s' ++ '"' :: rest))
          = some ('\x08' :: s', rest)
        rw [parseStrAux]
        simp [hE]
      · subst h4
        show parseStrAux (f + 1) ('\\' :: 't' :: (escapeStr s' ++ '"' :: rest))
          = some ('\t' :: s', rest)
        rw [parseStrAux]
        simp [hE]
      · subst h5
        show parseStrAux (f + 1) ('\\' :: 'n' :: (escapeStr s' ++ '"' :: rest))
          = some ('\n' :: s', rest)
        rw [parseStrAux]
        simp [hE]
      · subst h6
        show parseStrAux (f + 1) ('\\' :: 'f' :: (escapeStr s' ++ '"' :: rest))
          = some ('\x0c' :: s', rest)
        rw [parseStrAux]
        simp [hE]
      · subst h7
        show parseStrAux (f + 1) ('\\' :: 'r' :: (escapeStr s' ++ '"' :: rest))
          = some ('\r' :: s', rest)
        rw [parseStrAux]
        simp [hE]
      · -- control character, single \uXXXX escape
        show parseStrAux (f + 1) ('\\' :: 'u' :: (hex4 c.toNat ++ (escapeStr s' ++ '"' :: rest)))
          = some (c :: s', rest)
        rw [parseStrAux]
        simp only [reduceCtorEq, if_true, if_false]
        rw [hex4Val_hex4 _ _ (by omega)]
        simp only []
        rw [if_neg (show ¬(55296 ≤ c.toNat ∧ c.toNat ≤ 56319) by omega),
          if_neg (show ¬(56320 ≤ c.toNat ∧ c.toNat ≤ 57343) by omega)]
        simp [hE, Char.ofNat_toNat]
      · -- printable ASCII, copied verbatim
        show parseStrAux (f + 1) (c :: (escapeStr s' ++ '"' :: rest)) = some (c :: s', rest)
        rw [parseStrAux.eq_def]
        simp only []
        rw [if_neg h1, if_neg h2, if_neg h8, hE]
        rfl
      · -- BMP non-ASCII, single \uXXXX escape
        obtain ⟨hns1, hns2⟩ := char_not_surrogate c
        show parseStrAux (f + 1) ('\\' :: 'u' :: (hex4 c.toNat ++ (escapeStr s' ++ '"' :: rest)))
          = some (c :: s', rest)
        rw [parseStrAux]
        simp only [reduceCtorEq, if_true, if_false]
        rw [hex4Val_hex4 _ _ (by omega)]
        simp only []
        rw [if_neg hns1, if_neg hns2]
        simp [hE, Char.ofNat_toNat]
      · -- astral code point, surrogate pair
        have hv : c.toNat < 1114112 := by
          have hval : Nat.isValidChar c.toNat := c.valid
          rcases hval with hval | hval <;> omega
        show parseStrAux (f + 1) ('\\' :: 'u' :: (hex4 (55296 + (c.toNat - 65536) / 1024)
            ++ ('\\' :: 'u' :: (hex4 (56320 + (c.toNat - 65536) % 1024)
              ++ (escapeStr s' ++ '"' :: rest))))) = some (c :: s', rest)
        rw [parseStrAux]
        rw [hex4Val_hex4 _ _ (by omega)]
        simp only [Char.reduceEq, if_true, if_false, ite_true, ite_false, reduceIte]
        rw [if_pos (show 55296 ≤ 55296 + (c.toNat - 65536) / 1024
          ∧ 55296 + (c.toNat - 65536) / 1024 ≤ 56319 by omega)]
        rw [hex4Val_hex4 _ _ (by omega)]
        simp only [Char.reduceEq, if_true, if_false, ite_true, ite_false, reduceIte, and_self]
        rw [if_pos (show 56320 ≤ 56320 + (c.toNat - 65536) % 1024
          ∧ 56320 + (c.toNat - 65536) % 1024 ≤ 57343 by omega)]
        have harith : 65536 + (55296 + (c.toNat - 65536) / 1024 - 55296) * 1024
            + (56320 + (c.toNat - 65536) % 1024 - 56320) = c.toNat := by omega
        rw [harith, Char.ofNat_toNat, hE]
        rfl

/-! Whitespace and head-shape toolkit for the recursive-descent parser. -/

theorem skipWs_not_ws (c : Char) (t : List Char) (h : isJsonWs c = false) :
    skipWs (c :: t) = c :: t := by
  unfold skipWs
  exact List.dropWhile_cons_of_neg (by simp [h])

theorem skipWs_ws_prefix (a X : List Char) (h : ∀ x ∈ a, isJsonWs x = true) :
    skipWs (a ++ X) = skipWs X := by
  induction a with
  | nil => rfl
  | cons c t ih =>
    show skipWs (c :: (t ++ X)) = skipWs X
    unfold skipWs
    rw [List.dropWhile_cons_of_pos (by simp [h c (by simp)])]
    exact ih (fun x hx => h x (by simp [hx]))

theorem skipWs_nl_indent (lvl : Nat) (X : List Char) :
    skipWs ('\n' :: (indentSp lvl ++ X)) = skipWs X := by
  have h : skipWs (('\n' :: indentSp lvl) ++ X) = skipWs X := by
    refine skipWs_ws_prefix _ _ ?_
    intro x hx
    rcases List.mem_cons.mp hx with hx | hx
    · rw [hx]; rfl
    · rw [List.eq_of_mem_replicate hx]; rfl
  simpa using h

theorem skipWs_idem (s : List Char) : skipWs (skipWs s) = skipWs s := by
  induction s with
  | nil => rfl
  | cons c t ih =>
    by_cases hc : isJsonWs c = true
    · unfold skipWs
      rw [List.dropWhile_cons_of_pos (by simp [hc])]
      exact ih
    · rw [skipWs_not_ws c t (by simpa using hc), skipWs_not_ws c t (by simpa using hc)]

theorem parseItems_skipWs (fuel : Nat) (s : List Char) :
    parseItems fuel (skipWs s) = parseItems fuel s := by
  cases fuel with
  | zero => rfl
  | succ f => rw [parseItems, parseItems, skipWs_idem]

theorem parseMembers_skipWs (fuel : Nat) (s : List Char) :
    parseMembers fuel (skipWs s) = parseMembers fuel s := by
  cases fuel with
  | zero => rfl
  | succ f => rw [parseMembers, parseMembers, skipWs_idem]

theorem noDigitHead_cons (c : Char) (t : List Char) (h : c.isDigit = false) :
    noDigitHead (c :: t) := by
  intro c' hc'
  simp only [List.head?_cons, Option.some.injEq] at hc'
  rw [← hc']
  exact h

/-- Facts about a decimal-digit character used to steer the value parser. -/
theorem digitHead_ok (c : Char) (h : c.isDigit = true) :
    isJsonWs c = false ∧ c ≠ ']' ∧ c ≠ rbrace ∧ c ≠ lbrace ∧ c ≠ '['
      ∧ c ≠ '"' ∧ c ≠ '-' ∧ c ≠ 't' ∧ c ≠ 'f' ∧ c ≠ 'n' := by
  have d1 := ne_of_pred Char.isDigit ' ' (by decide) c h
  have d2 := ne_of_pred Char.isDigit '\t' (by decide) c h
  have d3 := ne_of_pred Char.isDigit '\n' (by decide) c h
  have d4 := ne_of_pred Char.isDigit '\r' (by decide) c h
  refine ⟨by simp [isJsonWs, d1, d2, d3, d4], ?_, ?_, ?_, ?_, ?_, ?_, ?_, ?_, ?_⟩
  · exact ne_of_pred Char.isDigit ']' (by decide) c h
  · exact ne_of_pred Char.isDigit rbrace (by decide) c h
  · exact ne_of_pred Char.isDigit lbrace (by decide) c h
  · exact ne_of_pred Char.isDigit '[' (by decide) c h
  · exact ne_of_pred Char.isDigit '"' (by decide) c h
  · exact ne_of_pred Char.isDigit '-' (by decide) c h
  · exact ne_of_pred Char.isDigit 't' (by decide) c h
  · exact ne_of_pred Char.isDigit 'f' (by decide) c h
  · exact ne_of_pred Char.isDigit 'n' (by decide) c h

/-- The first character of any serialized value: never whitespace, never a
closing bracket. -/
theorem dumpV_head_ok (lvl : Nat) (v : JVal) :
    ∃ c t, dumpV lvl v = c :: t ∧ isJsonWs c = false ∧ c ≠ ']' ∧ c ≠ rbrace := by
  cases v with
  | jstr s => exact ⟨'"', escapeStr s.data ++ ['"'], by simp [dumpV, dumpStr],
      by decide, by decide, by decide⟩
  | joid s => exact ⟨'"', escapeStr s.data ++ ['"'], by simp [dumpV, dumpStr],
      by decide, by decide, by decide⟩
  | jint i =>
    by_cases hi : i < 0
    · refine ⟨'-', natDigits i.natAbs, ?_, by decide, by decide, by decide⟩
      simp [dumpV, intDigits, hi, natDigits]
    · obtain ⟨_, hall, h, hs, heq, _⟩ := natDigitsAux_spec (i.natAbs + 1) i.natAbs (by omega)
      have hd : h.isDigit = true := hall h (by rw [heq]; simp)
      obtain ⟨w1, w2, w3, _⟩ := digitHead_ok h hd
      refine ⟨h, hs, ?_, w1, w2, w3⟩
      simp only [dumpV, intDigits, if_neg hi]
      exact heq
  | jbool b =>
    cases b with
    | true => exact ⟨'t', ['r', 'u', 'e'], by simp [dumpV], by decide, by decide, by decide⟩
    | false => exact ⟨'f', ['a', 'l', 's', 'e'], by simp [dumpV], by decide, by decide, by decide⟩
  | jnull => exact ⟨'n', ['u', 'l', 'l'], by simp [dumpV], by decide, by decide, by decide⟩
  | jarr a =>
    cases a with
    | anil => exact ⟨'[', [']'], by simp [dumpV], by decide, by decide, by decide⟩
    | acons v t => exact ⟨'[', _, dumpV_arr_eq lvl v t, by decide, by decide, by decide⟩
  | jobj o =>
    cases o with
    | onil => exact ⟨lbrace, [rbrace], by simp [dumpV], by decide, by decide, by decide⟩
    | ocons k v t => exact ⟨lbrace, _, dumpV_obj_eq lvl k v t, by decide, by decide, by decide⟩

/-- A non-empty serialized array body decomposes as newline, indent, first
value, then a tail. -/
theorem dumpA_decomp (lvl : Nat) (v : JVal) (t : JArr) :
    ∃ arest, dumpA lvl (.acons v t) = '\n' :: (indentSp lvl ++ (dumpV lvl v ++ arest))
      ∧ ((arest = [] ∧ t = .anil) ∨ ∃ r', arest = ',' :: r' ∧ r' = dumpA lvl t ∧ t ≠ .anil) := by
  cases t with
  | anil =>
    refine ⟨[], ?_, Or.inl ⟨rfl, rfl⟩⟩
    rw [dumpA_one_eq, List.append_nil]
  | acons w t' =>
    refine ⟨',' :: dumpA lvl (.acons w t'), ?_, Or.inr ⟨_, rfl, rfl, by simp⟩⟩
    rw [dumpA_cons_eq]
    simp [List.append_assoc]

/-- A non-empty serialized object body decomposes as newline, indent, quoted
key, colon-space, first value, then a tail. -/
theorem dumpO_decomp (lvl : Nat) (k : String) (v : JVal) (t : JObj) :
    ∃ orest, dumpO lvl (.ocons k v t) =
      '\n' :: (indentSp lvl ++ ('"' :: (escapeStr k.data ++ '"' :: (':' :: ' ' :: (dumpV lvl v ++ orest)))))
      ∧ ((orest = [] ∧ t = .onil) ∨ ∃ r', orest = ',' :: r' ∧ r' = dumpO lvl t ∧ t ≠ .onil) := by
  cases t with
  | onil =>
    refine ⟨[], ?_, Or.inl ⟨rfl, rfl⟩⟩
    rw [dumpO_one_eq]
    simp [dumpStr, List.append_assoc]
  | ocons k2 v2 t' =>
    refine ⟨',' :: dumpO lvl (.ocons k2 v2 t'), ?_, Or.inr ⟨_, rfl, rfl, by simp⟩⟩
    rw [dumpO_cons_eq]
    simp [dumpStr, List.append_assoc]

set_option maxHeartbeats 2000000 in
/-- One-step unfolding of `parseVal` (provable by reduction; the
auto-generated equations split too finely to be usable). -/
theorem parseVal_succ (fuel : Nat) (c : Char) (t : List Char) :
    parseVal (fuel + 1) (c :: t) =
      (if c = lbrace then
        match skipWs t with
        | [] => none
        | d :: r2 =>
          if d = rbrace then some (.jobj .onil, r2)
          else (parseMembers fuel (d :: r2)).map (fun p => (.jobj p.1, p.2))
      else if c = '[' then
        match skipWs t with
        | [] => none
        | d :: r2 =>
          if d = ']' then some (.jarr .anil, r2)
          else (parseItems fuel (d :: r2)).map (fun p => (.jarr p.1, p.2))
      else if c = '"' then
        (parseStrAux fuel t).map (fun p => (.jstr (String.mk p.1), p.2))
      else if c = '-' then
        (parseNatTok t).map (fun p => (.jint (-(p.1 : Int)), p.2))
      else if c = 't' then
        (match t with
         | 'r' :: 'u' :: 'e' :: r => some (.jbool true, r)
         | _ => none)
      else if c = 'f' then
        (match t with
         | 'a' :: 'l' :: 's' :: 'e' :: r => some (.jbool false, r)
         | _ => none)
      else if c = 'n' then
        (match t with
         | 'u' :: 'l' :: 'l' :: r => some (.jnull, r)
         | _ => none)
      else
        (parseNatTok (c :: t)).map (fun p => (.jint (p.1 : Int), p.2))) := rfl

set_option maxHeartbeats 2000000 in
/-- One-step unfolding of `parseItems`. -/
theorem parseItems_succ (fuel : Nat) (s : List Char) :
    parseItems (fuel + 1) s =
      (match parseVal fuel (skipWs s) with
      | none => none
      | some (v, r) =>
        match skipWs r with
        | ',' :: r2 => (parseItems fuel r2).map (fun p => (.acons v p.1, p.2))
        | ']' :: r2 => some (.acons v .anil, r2)
        | _ => none) := rfl

set_option maxHeartbeats 2000000 in
/-- One-step unfolding of `parseMembers`. -/
theorem parseMembers_succ (fuel : Nat) (s : List Char) :
    parseMembers (fuel + 1) s =
      (match skipWs s with
      | [] => none
      | c :: r1 =>
        if c = '"' then
          match parseStrAux fuel r1 with
          | none => none
          | some (k, r2) =>
            match skipWs r2 with
            | ':' :: r3 =>
              match parseVal fuel (skipWs r3) with
              | none => none
              | some (v, r4) =>
                match skipWs r4 with
                | [] => none
                | d :: r5 =>
                  if d = ',' then
                    (parseMembers fuel r5).map (fun p => (.ocons (String.mk k) v p.1, p.2))
                  else if d = rbrace then some (.ocons (String.mk k) v .onil, r5)
                  else none
            | _ => none
        else none) := rfl

set_option maxHeartbeats 4000000 in
/-- The parser inverts the serializer (up to the `ObjectId` coercion), by
joint induction on the parser fuel. -/
theorem parse_dump_all : ∀ n : Nat,
    (∀ v lvl rest, sizeV v ≤ n → noDigitHead rest →
      parseVal n (dumpV lvl v ++ rest) = some (coerceV v, rest))
    ∧ (∀ v t lvl lvl2 rest, sizeA (.acons v t) ≤ n →
      parseItems n (dumpA lvl (.acons v t) ++ '\n' :: (indentSp lvl2 ++ ']' :: rest))
        = some (coerceA (.acons v t), rest))
    ∧ (∀ k v t lvl lvl2 rest, sizeO (.ocons k v t) ≤ n →
      parseMembers n (dumpO lvl (.ocons k v t) ++ '\n' :: (indentSp lvl2 ++ rbrace :: rest))
        = some (coerceO (.ocons k v t), rest)) := by
  intro n
  induction n with
  | zero =>
    refine ⟨fun v lvl rest hv _ => absurd hv (by have := sizeV_pos v; omega),
      fun v t lvl lvl2 rest ha => absurd ha (by
        have := sizeV_pos v
        have := sizeA_pos t
        simp only [sizeA]
        omega),
      fun k v t lvl lvl2 rest ho => absurd ho (by
        have := sizeV_pos v
        have := sizeO_pos t
        simp only [sizeO]
        omega)⟩
  | succ m ih =>
    obtain ⟨ihV, ihA, ihO⟩ := ih
    refine ⟨?_, ?_, ?_⟩
    · -- parseVal on a dumped value
      intro v lvl rest hsz hnd
      cases v with
      | jstr s =>
        have hshape : dumpV lvl (.jstr s) ++ rest = '"' :: (escapeStr s.data ++ '"' :: rest) := by
          simp [dumpV, dumpStr, List.append_assoc]
        rw [hshape, parseVal_succ,
          if_neg (by decide : ¬(('"' : Char) = lbrace)),
          if_neg (by decide : ¬(('"' : Char) = '[')), if_pos rfl,
          parseStrAux_escape s.data m rest (by simp only [sizeV] at hsz; omega)]
        rfl
      | joid s =>
        have hshape : dumpV lvl (.joid s) ++ rest = '"' :: (escapeStr s.data ++ '"' :: rest) := by
          simp [dumpV, dumpStr, List.append_assoc]
        rw [hshape, parseVal_succ,
          if_neg (by decide : ¬(('"' : Char) = lbrace)),
          if_neg (by decide : ¬(('"' : Char) = '[')), if_pos rfl,
          parseStrAux_escape s.data m rest (by simp only [sizeV] at hsz; omega)]
        rfl
      | jint i =>
        by_cases hneg : i < 0
        · have hshape : dumpV lvl (.jint i) ++ rest = '-' :: (natDigits i.natAbs ++ rest) := by
            simp [dumpV, intDigits, hneg, natDigits]
          rw [hshape, parseVal_succ,
            if_neg (by decide : ¬(('-' : Char) = lbrace)),
            if_neg (by decide : ¬(('-' : Char) = '[')),
            if_neg (by decide : ¬(('-' : Char) = '"')), if_pos rfl,
            parseNatTok_natDigits i.natAbs rest hnd]
          have hi : -((i.natAbs : Nat) : Int) = i := by omega
          show some (JVal.jint (-((i.natAbs : Nat) : Int)), rest) = some (coerceV (.jint i), rest)
          rw [hi]
          simp [coerceV]
        · obtain ⟨_, hall, h, hs, heq, _⟩ := natDigitsAux_spec (i.natAbs + 1) i.natAbs (by omega)
          have hd : h.isDigit = true := hall h (by rw [heq]; simp)
          obtain ⟨_, _, _, w4, w5, w6, w7, w8, w9, w10⟩ := digitHead_ok h hd
          have hshape : dumpV lvl (.jint i) ++ rest = h :: (hs ++ rest) := by
            simp only [dumpV, intDigits, if_neg hneg]
            rw [show natDigits i.natAbs = h :: hs from heq]
            rfl
          rw [hshape, parseVal_succ, if_neg w4, if_neg w5, if_neg w6, if_neg w7,
            if_neg w8, if_neg w9, if_neg w10]
          have hpn : parseNatTok (h :: (hs ++ rest)) = some (i.natAbs, rest) := by
            rw [show h :: (hs ++ rest) = natDigits i.natAbs ++ rest by
              rw [show natDigits i.natAbs = h :: hs from heq]; rfl]
            exact parseNatTok_natDigits i.natAbs rest hnd
          rw [hpn]
          have hi : ((i.natAbs : Nat) : Int) = i := by omega
          show some (JVal.jint ((i.natAbs : Nat) : Int), rest) = some (coerceV (.jint i), rest)
          rw [hi]
          simp [coerceV]
      | jbool b => cases b <;> rfl
      | jnull => rfl
      | jarr a =>
        cases a with
        | anil => rfl
        | acons v t =>
          obtain ⟨arest, hA, hAor⟩ := dumpA_decomp (lvl + 1) v t
          have hshape : dumpV lvl (.jarr (.acons v t)) ++ rest
              = '[' :: (dumpA (lvl + 1) (.acons v t) ++ '\n' :: (indentSp lvl ++ (']' :: rest))) := by
            rw [dumpV_arr_eq]
            simp [List.append_assoc]
          obtain ⟨d, dt, hD, hdw, hd1, hd2⟩ := dumpV_head_ok (lvl + 1) v
          have hskip : skipWs (dumpA (lvl + 1) (.acons v t) ++ '\n' :: (indentSp lvl ++ (']' :: rest)))
              = d :: (dt ++ (arest ++ '\n' :: (indentSp lvl ++ (']' :: rest)))) := by
            rw [hA, show ('\n' :: (indentSp (lvl + 1) ++ (dumpV (lvl + 1) v ++ arest)))
                  ++ '\n' :: (indentSp lvl ++ (']' :: rest))
                = '\n' :: (indentSp (lvl + 1) ++ (dumpV (lvl + 1) v
                  ++ (arest ++ '\n' :: (indentSp lvl ++ (']' :: rest))))) by
              simp [List.append_assoc]]
            rw [skipWs_nl_indent, hD]
            exact skipWs_not_ws _ _ hdw
          rw [hshape, parseVal_succ, if_neg (by decide : ¬(('[' : Char) = lbrace)), if_pos rfl,
            hskip]
          simp only []
          rw [if_neg hd1]
          have hPI : parseItems m (d :: (dt ++ (arest ++ '\n' :: (indentSp lvl ++ (']' :: rest)))))
              = some (coerceA (.acons v t), rest) := by
            rw [hskip.symm, parseItems_skipWs]
            refine ihA v t (lvl + 1) lvl rest ?_
            simp only [sizeV] at hsz
            omega
          rw [hPI]
          simp [coerceV]
      | jobj o =>
        cases o with
        | onil => rfl
        | ocons k v t =>
          obtain ⟨orest, hO, hOor⟩ := dumpO_decomp (lvl + 1) k v t
          have hshape : dumpV lvl (.jobj (.ocons k v t)) ++ rest
              = lbrace :: (dumpO (lvl + 1) (.ocons k v t)
                ++ '\n' :: (indentSp lvl ++ (rbrace :: rest))) := by
            rw [dumpV_obj_eq]
            simp [List.append_assoc]
          have hskip : skipWs (dumpO (lvl + 1) (.ocons k v t)
                ++ '\n' :: (indentSp lvl ++ (rbrace :: rest)))
              = '"' :: ((escapeStr k.data ++ '"' :: (':' :: ' ' :: (dumpV (lvl + 1) v ++ orest)))
                ++ '\n' :: (indentSp lvl ++ (rbrace :: rest))) := by
            rw [hO, show ('\n' :: (indentSp (lvl + 1) ++ ('"' :: (escapeStr k.data
                  ++ '"' :: (':' :: ' ' :: (dumpV (lvl + 1) v ++ orest))))))
                  ++ '\n' :: (indentSp lvl ++ (rbrace :: rest))
                = '\n' :: (indentSp (lvl + 1) ++ ('"' :: ((escapeStr k.data
                  ++ '"' :: (':' :: ' ' :: (dumpV (lvl + 1) v ++ orest)))
                  ++ '\n' :: (indentSp lvl ++ (rbrace :: rest))))) by
              simp [List.append_assoc]]
            rw [skipWs_nl_indent]
            exact skipWs_not_ws _ _ (by decide)
          rw [hshape, parseVal_succ, if_pos rfl, hskip]
          simp only []
          rw [if_neg (by decide : ¬(('"' : Char) = rbrace))]
          have hPM : parseMembers m ('"' :: ((escapeStr k.data
                ++ '"' :: (':' :: ' ' :: (dumpV (lvl + 1) v ++ orest)))
                ++ '\n' :: (indentSp lvl ++ (rbrace :: rest))))
              = some (coerceO (.ocons k v t), rest) := by
            rw [← hskip, parseMembers_skipWs]
            refine ihO k v t (lvl + 1) lvl rest ?_
            simp only [sizeV] at hsz
            omega
          rw [hPM]
          simp [coerceV]
    · -- parseItems on a dumped array body
      intro v t lvl lvl2 rest hsz
      obtain ⟨arest, hA, hAor⟩ := dumpA_decomp lvl v t
      obtain ⟨d, dt, hD, hdw, hd1, hd2⟩ := dumpV_head_ok lvl v
      have hszv : sizeV v ≤ m := by
        simp only [sizeA] at hsz
        have := sizeA_pos t
        omega
      have hnd2 : noDigitHead (arest ++ '\n' :: (indentSp lvl2 ++ ']' :: rest)) := by
        rcases hAor with ⟨rfl, _⟩ | ⟨r', rfl, _, _⟩
        · exact noDigitHead_cons _ _ (by decide)
        · exact noDigitHead_cons _ _ (by decide)
      have hskip : skipWs (dumpA lvl (.acons v t) ++ '\n' :: (indentSp lvl2 ++ ']' :: rest))
          = dumpV lvl v ++ (arest ++ '\n' :: (indentSp lvl2 ++ ']' :: rest)) := by
        rw [hA, show ('\n' :: (indentSp lvl ++ (dumpV lvl v ++ arest)))
              ++ '\n' :: (indentSp lvl2 ++ ']' :: rest)
            = '\n' :: (indentSp lvl ++ (dumpV lvl v
              ++ (arest ++ '\n' :: (indentSp lvl2 ++ ']' :: rest)))) by
          simp [List.append_assoc]]
        rw [skipWs_nl_indent, hD]
        exact skipWs_not_ws _ _ hdw
      rw [parseItems_succ, hskip, ihV v lvl _ hszv hnd2]
      simp only []
      rcases hAor with ⟨rfl, rfl⟩ | ⟨r', rfl, hr', htne⟩
      · rw [show ([] : List Char) ++ '\n' :: (indentSp lvl2 ++ ']' :: rest)
            = '\n' :: (indentSp lvl2 ++ ']' :: rest) from rfl]
        rw [skipWs_nl_indent, skipWs_not_ws _ _ (by decide)]
        simp only [Char.reduceEq, if_true, if_false, ite_true, ite_false]
        simp [coerceA]
      · cases t with
        | anil => exact absurd rfl htne
        | acons w t' =>
          subst hr'
          rw [show (',' :: dumpA lvl (.acons w t')) ++ '\n' :: (indentSp lvl2 ++ ']' :: rest)
              = ',' :: (dumpA lvl (.acons w t') ++ '\n' :: (indentSp lvl2 ++ ']' :: rest)) from rfl]
          rw [skipWs_not_ws _ _ (by decide)]
          simp only [Char.reduceEq, if_true, if_false, ite_true, ite_false]
          rw [ihA w t' lvl lvl2 rest (by
            simp only [sizeA] at hsz ⊢
            have := sizeV_pos v
            omega)]
          simp [coerceA]
    · -- parseMembers on a dumped object body
      intro k v t lvl lvl2 rest hsz
      obtain ⟨orest, hO, hOor⟩ := dumpO_decomp lvl k v t
      obtain ⟨d, dt, hD, hdw, hd1, hd2⟩ := dumpV_head_ok lvl v
      have hszv : sizeV v ≤ m := by
        simp only [sizeO] at hsz
        have := sizeO_pos t
        omega
      have hklen : k.data.length < m := by
        simp only [sizeO] at hsz
        have := sizeO_pos t
        have := sizeV_pos v
        omega
      have hnd2 : noDigitHead (orest ++ '\n' :: (indentSp lvl2 ++ rbrace :: rest)) := by
        rcases hOor with ⟨rfl, _⟩ | ⟨r', rfl, _, _⟩
        · exact noDigitHead_cons _ _ (by decide)
        · exact noDigitHead_cons _ _ (by decide)
      have hskip : skipWs (dumpO lvl (.ocons k v t) ++ '\n' :: (indentSp lvl2 ++ rbrace :: rest))
          = '"' :: ((escapeStr k.data ++ '"' :: (':' :: ' ' :: (dumpV lvl v ++ orest)))
            ++ '\n' :: (indentSp lvl2 ++ rbrace :: rest)) := by
        rw [hO, show ('\n' :: (indentSp lvl ++ ('"' :: (escapeStr k.data
              ++ '"' :: (':' :: ' ' :: (dumpV lvl v ++ orest))))))
              ++ '\n' :: (indentSp lvl2 ++ rbrace :: rest)
            = '\n' :: (indentSp lvl ++ ('"' :: ((escapeStr k.data
              ++ '"' :: (':' :: ' ' :: (dumpV lvl v ++ orest)))
              ++ '\n' :: (indentSp lvl2 ++ rbrace :: rest)))) by
          simp [List.append_assoc]]
        rw [skipWs_nl_indent]
        exact skipWs_not_ws _ _ (by decide)
      rw [parseMembers_succ, hskip]
      simp only []
      first
      | rw [if_true]
      | rw [if_pos rfl]
      rw [show (escapeStr k.data ++ '"' :: (':' :: ' ' :: (dumpV lvl v ++ orest)))
            ++ '\n' :: (indentSp lvl2 ++ rbrace :: rest)
          = escapeStr k.data ++ '"' :: (':' :: ' ' :: (dumpV lvl v
            ++ (orest ++ '\n' :: (indentSp lvl2 ++ rbrace :: rest)))) by
        simp [List.append_assoc]]
      rw [parseStrAux_escape k.data m _ hklen]
      simp only []
      rw [skipWs_not_ws _ _ (by decide)]
      simp only [Char.reduceEq, if_true, if_false, ite_true, ite_false]
      have hskip3 : skipWs (' ' :: (dumpV lvl v
            ++ (orest ++ '\n' :: (indentSp lvl2 ++ rbrace :: rest))))
          = dumpV lvl v ++ (orest ++ '\n' :: (indentSp lvl2 ++ rbrace :: rest)) := by
        have hws : skipWs ([' '] ++ (dumpV lvl v
            ++ (orest ++ '\n' :: (indentSp lvl2 ++ rbrace :: rest))))
            = skipWs (dumpV lvl v ++ (orest ++ '\n' :: (indentSp lvl2 ++ rbrace :: rest))) :=
          skipWs_ws_prefix [' '] _ (by intro x hx; simp at hx; rw [hx]; rfl)
        rw [show (' ' :: (dumpV lvl v ++ (orest ++ '\n' :: (indentSp lvl2 ++ rbrace :: rest))))
            = [' '] ++ (dumpV lvl v ++ (orest ++ '\n' :: (indentSp lvl2 ++ rbrace :: rest)))
          from rfl, hws, hD]
        exact skipWs_not_ws _ _ hdw
      rw [hskip3, ihV v lvl _ hszv hnd2]
      simp only []
      rcases hOor with ⟨rfl, rfl⟩ | ⟨r', rfl, hr', htne⟩
      · rw [show ([] : List Char) ++ '\n' :: (indentSp lvl2 ++ rbrace :: rest)
            = '\n' :: (indentSp lvl2 ++ rbrace :: rest) from rfl]
        rw [skipWs_nl_indent, skipWs_not_ws _ _ (by decide)]
        simp only []
        first
        | rw [if_neg (by decide : ¬(rbrace = ',')), if_pos rfl]
        | simp only [Char.reduceEq, if_true, if_false, ite_true, ite_false]
        simp [coerceO]
        all_goals (intro h2; exact absurd h2 (by decide))
      · cases t with
        | onil => exact absurd rfl htne
        | ocons k2 v2 t' =>
          subst hr'
          rw [show (',' :: dumpO lvl (.ocons k2 v2 t'))
                ++ '\n' :: (indentSp lvl2 ++ rbrace :: rest)
              = ',' :: (dumpO lvl (.ocons k2 v2 t')
                ++ '\n' :: (indentSp lvl2 ++ rbrace :: rest)) from rfl]
          rw [skipWs_not_ws _ _ (by decide)]
          simp only []
          first
          | rw [if_true]
          | rw [if_pos rfl]
          rw [ihO k2 v2 t' lvl lvl2 rest (by
            simp only [sizeO] at hsz ⊢
            have := sizeV_pos v
            omega)]
          simp [coerceO]

/-! Fuel adequacy: the parser fuel `json.loads` allots (input length plus
one) dominates the size measure of the dumped value. -/

set_option maxHeartbeats 1000000 in
theorem escChar_len (c : Char) : 1 ≤ (escChar c).length := by
  unfold escChar
  split_ifs <;> simp [uEsc, hex4]

theorem escapeStr_len (s : List Char) : s.length ≤ (escapeStr s).length := by
  induction s with
  | nil => simp [escapeStr]
  | cons c t ih =>
    show (c :: t).length ≤ (escChar c ++ escapeStr t).length
    have := escChar_len c
    simp only [List.length_cons, List.length_append]
    omega

theorem natDigits_len (n : Nat) : 1 ≤ (natDigits n).length := by
  obtain ⟨_, _, h, hs, heq, _⟩ := natDigitsAux_spec (n + 1) n (by omega)
  rw [show natDigits n = h :: hs from heq]
  simp

theorem dump_size_le : ∀ n : Nat,
    (∀ v lvl, sizeV v ≤ n → sizeV v ≤ (dumpV lvl v).length)
    ∧ (∀ v t lvl, sizeA (.acons v t) ≤ n →
        sizeA (.acons v t) ≤ (dumpA lvl (.acons v t)).length + 1)
    ∧ (∀ k v t lvl, sizeO (.ocons k v t) ≤ n →
        sizeO (.ocons k v t) ≤ (dumpO lvl (.ocons k v t)).length + 1) := by
  intro n
  induction n with
  | zero =>
    refine ⟨fun v lvl hv => absurd hv (by have := sizeV_pos v; omega),
      fun v t lvl ha => absurd ha (by
        have := sizeV_pos v
        have := sizeA_pos t
        simp only [sizeA]
        omega),
      fun k v t lvl ho => absurd ho (by
        have := sizeV_pos v
        have := sizeO_pos t
        simp only [sizeO]
        omega)⟩
  | succ m ih =>
    obtain ⟨ihV, ihA, ihO⟩ := ih
    refine ⟨?_, ?_, ?_⟩
    · intro v lvl hsz
      cases v with
      | jstr s =>
        have := escapeStr_len s.data
        simp only [sizeV, dumpV, dumpStr, List.length_cons, List.length_append]
        simp only [List.length_cons, List.length_nil]
        omega
      | joid s =>
        have := escapeStr_len s.data
        simp only [sizeV, dumpV, dumpStr, List.length_cons, List.length_append]
        simp only [List.length_cons, List.length_nil]
        omega
      | jint i =>
        have := natDigits_len i.natAbs
        simp only [sizeV, dumpV, intDigits]
        split_ifs <;> simp only [List.length_cons, natDigits] at * <;> omega
      | jbool b => cases b <;> simp [sizeV, dumpV]
      | jnull => simp [sizeV, dumpV]
      | jarr a =>
        cases a with
        | anil => simp [sizeV, sizeA, dumpV]
        | acons v t =>
          have hrec := ihA v t (lvl + 1) (by simp only [sizeV] at hsz; omega)
          rw [dumpV_arr_eq]
          simp only [sizeV, List.length_cons, List.length_append, indentSp,
            List.length_replicate] at hrec ⊢
          omega
      | jobj o =>
        cases o with
        | onil => simp [sizeV, sizeO, dumpV, lbrace, rbrace]
        | ocons k v t =>
          have hrec := ihO k v t (lvl + 1) (by simp only [sizeV] at hsz; omega)
          rw [dumpV_obj_eq]
          simp only [sizeV, List.length_cons, List.length_append, indentSp,
            List.length_replicate] at hrec ⊢
          omega
    · intro v t lvl hsz
      cases t with
      | anil =>
        have hv := ihV v lvl (by
          simp only [sizeA] at hsz
          have := sizeA_pos JArr.anil
          omega)
        rw [dumpA_one_eq]
        simp only [sizeA, List.length_cons, List.length_append, indentSp,
          List.length_replicate]
        omega
      | acons w t' =>
        have hv := ihV v lvl (by
          simp only [sizeA] at hsz
          have := sizeA_pos (JArr.acons w t')
          omega)
        have ha := ihA w t' lvl (by
          simp only [sizeA] at hsz ⊢
          have := sizeV_pos v
          omega)
        rw [dumpA_cons_eq]
        simp only [sizeA, List.length_cons, List.length_append, indentSp,
          List.length_replicate] at ha ⊢
        omega
    · intro k v t lvl hsz
      cases t with
      | onil =>
        have hv := ihV v lvl (by
          simp only [sizeO] at hsz
          have := sizeO_pos JObj.onil
          omega)
        have hk := escapeStr_len k.data
        rw [dumpO_one_eq]
        simp only [sizeO, dumpStr, List.length_cons, List.length_append, indentSp,
          List.length_replicate, List.length_nil]
        omega
      | ocons k2 v2 t' =>
        have hv := ihV v lvl (by
          simp only [sizeO] at hsz
          have := sizeO_pos (JObj.ocons k2 v2 t')
          omega)
        have ho := ihO k2 v2 t' lvl (by
          simp only [sizeO] at hsz ⊢
          have := sizeV_pos v
          omega)
        have hk := escapeStr_len k.data
        rw [dumpO_cons_eq]
        simp only [sizeO, dumpStr, List.length_cons, List.length_append, indentSp,
          List.length_replicate, List.length_nil] at ho ⊢
        omega

theorem dumpV_size_le (v : JVal) (lvl : Nat) : sizeV v ≤ (dumpV lvl v).length :=
  (dump_size_le (sizeV v)).1 v lvl (le_refl _)

/-- `json.loads` recovers a dumped value (with `ObjectId` leaves coerced to
strings), given the trailing newline the assembler appends. -/
theorem jsonLoads_dump (v : JVal) :
    jsonLoads (dumpV 0 v ++ ['\n']) = some (coerceV v) := by
  unfold jsonLoads
  obtain ⟨c, t, hD, hdw, _, _⟩ := dumpV_head_ok 0 v
  have hskip : skipWs (dumpV 0 v ++ ['\n']) = dumpV 0 v ++ ['\n'] := by
    rw [hD]
    exact skipWs_not_ws _ _ hdw
  have hfuel : (dumpV 0 v ++ ['\n']).length + 1 = (dumpV 0 v).length + 2 := by simp
  rw [hskip, hfuel]
  have hP := (parse_dump_all ((dumpV 0 v).length + 2)).1 v 0 ['\n']
    (le_trans (dumpV_size_le v 0) (by omega)) (noDigitHead_cons _ _ (by decide))
  rw [hP]
  rfl

theorem jlookup_coerce_aux : ∀ n o key, sizeO o ≤ n →
    jlookup (coerceO o) key = (jlookup o key).map coerceV := by
  intro n
  induction n with
  | zero =>
    intro o key h
    exact absurd h (by have := sizeO_pos o; omega)
  | succ m ih =>
    intro o key h
    cases o with
    | onil => rfl
    | ocons k v t =>
      show jlookup (.ocons k (coerceV v) (coerceO t)) key = _
      rw [jlookup, jlookup, ih t key (by
        simp only [sizeO] at h
        have := sizeV_pos v
        omega)]
      cases jlookup t key with
      | some w => rfl
      | none =>
        simp only [Option.map_none']
        by_cases hk : k = key
        · rw [if_pos hk, if_pos hk]
          rfl
        · rw [if_neg hk, if_neg hk]
          rfl

/-- Coercion commutes with dictionary lookup. -/
theorem jlookup_coerce (o : JObj) (key : String) :
    jlookup (coerceO o) key = (jlookup o key).map coerceV :=
  jlookup_coerce_aux (sizeO o) o key (le_refl _)

/-- C3 (amended): when the generated text does not itself contain the bare
start marker `--- ACG_START ---`, assembling with a single-entry verified
source registry whose entry carries the `SHI` field and an empty relation
registry, then parsing the result, recovers the source registry as the map
from that `SHI` string to the (coercion-normalized) entry, and an empty
relation registry. -/
theorem assemble_parse_round_trip (txt shi1 : String) (o1 : JObj)
    (hno : containsSub acgStartBare (pyStrip txt.data) = false)
    (hshi : jlookup o1 "SHI" = some (.jstr shi1)) :
    ∃ igms rms,
      parse_acg_data (assemble_final_output txt [(shi1, .jobj o1)] [])
        = .ok (igms, rms, some [(.jstr shi1, coerceV (.jobj o1))], some []) := by
  have hlk : jlookup (coerceO o1) "SHI" = some (.jstr shi1) := by
    rw [jlookup_coerce, hshi]
    rfl
  have hidx : pyIndexStr (.jobj (coerceO o1)) "SHI" = .ok (.jstr shi1) := by
    unfold pyIndexStr
    simp only []
    rw [hlk]
  have hssr : registryDictFor (coerceV (.jobj (.ocons "SSR"
        (.jarr (.acons (.jobj o1) .anil)) (.ocons "VAR" (.jarr .anil) .onil))))
        "SSR" "SHI"
      = .ok (some [(.jstr shi1, coerceV (.jobj o1))]) := by
    show registryDictFor (.jobj (.ocons "SSR" (.jarr (.acons (.jobj (coerceO o1)) .anil))
        (.ocons "VAR" (.jarr .anil) .onil))) "SSR" "SHI"
      = .ok (some [(.jstr shi1, .jobj (coerceO o1))])
    simp [registryDictFor, pyContainsStr, objHasKey, pyIndexStr, jlookup,
      buildMap, buildMapAux, dictKeyOf, mapInsert, hlk]
  have hvar : registryDictFor (coerceV (.jobj (.ocons "SSR"
        (.jarr (.acons (.jobj o1) .anil)) (.ocons "VAR" (.jarr .anil) .onil))))
        "VAR" "RELATION_ID"
      = .ok (some []) := by
    show registryDictFor (.jobj (.ocons "SSR" (.jarr (.acons (.jobj (coerceO o1)) .anil))
        (.ocons "VAR" (.jarr .anil) .onil))) "VAR" "RELATION_ID" = .ok (some [])
    simp [registryDictFor, pyContainsStr, objHasKey, pyIndexStr, jlookup,
      buildMap, buildMapAux, dictKeyOf, mapInsert]
  have haeq : (assemble_final_output txt [(shi1, .jobj o1)] []).data
      = pyStrip txt.data ++ '\n' :: '\n' :: (acgStartLit
        ++ (dumpV 0 (.jobj (.ocons "SSR" (.jarr (.acons (.jobj o1) .anil))
            (.ocons "VAR" (.jarr .anil) .onil))) ++ '\n' :: (acgEndLit ++ ['\n']))) := by
    show (String.mk (pyStrip txt.data) ++ "\n"
        ++ "\n--- ACG_START ---\n"
        ++ String.mk (dumpV 0 (.jobj (.ocons "SSR" (.jarr (.acons (.jobj o1) .anil))
            (.ocons "VAR" (.jarr .anil) .onil))) ) ++ "\n"
        ++ "\n--- ACG_END ---\n").data = _
    simp only [String.data_append, List.append_assoc]
    rfl
  refine ⟨findClaimMarkers (assemble_final_output txt [(shi1, .jobj o1)] []).data,
    findRelMarkers (assemble_final_output txt [(shi1, .jobj o1)] []).data, ?_⟩
  unfold parse_acg_data
  rw [haeq, findAcgBlock_skip _ _ hno, takeUntilEnd_block _ (dumpV_nlOk _ 0)]
  simp only []
  rw [jsonLoads_dump]
  simp only []
  rw [hssr]
  simp only []
  rw [hvar]

/-- C3 witness: a concrete assemble-then-parse run recovering the registry. -/
theorem assemble_parse_round_trip_witness :
    ∃ igms rms,
      parse_acg_data (assemble_final_output "t"
          [("ab", .jobj (.ocons "SHI" (.jstr "ab") .onil))] [])
        = .ok (igms, rms,
            some [(.jstr "ab", coerceV (.jobj (.ocons "SHI" (.jstr "ab") .onil)))],
            some []) :=
  assemble_parse_round_trip "t" "ab" (.ocons "SHI" (.jstr "ab") .onil)
    (by decide) (by decide)

/-- C3 counterexample to the claim as stated: when the generated text itself
contains the registry block markers, the appended registry is not recovered —
the parser locates the earlier (non-JSON) block, the decode fails, and both
registries come back `none` instead of the single-entry map. -/
theorem assemble_parse_round_trip_cex :
    parse_acg_data (assemble_final_output "--- ACG_START ---\nx\n--- ACG_END ---"
        [("ab", .jobj (.ocons "SHI" (.jstr "ab") .onil))] [])
      = .ok ([], [], none, none) := rfl
